import Mathlib

/-! The gzat AT-command tokenizer and response-parser tree.

A shallow embedding of `include/gzat_parser.hpp` and `source/gzat_parser.cpp`.

* A `std::string` is a `List Char`; one `Char` stands for one byte of the string.
* `std::string::substr` throws `std::out_of_range` when the start position lies past the end
  of the string; the embedding returns `none` there.
* `std::string::find` returns the position of the first occurrence, `npos` is `none`.
* Caller-owned output slots (`int64_t*`, `double*`, `std::string*`) are addresses into a store;
  a null pointer is `none`.
-/

namespace gzat

/-- A `std::string`, one `Char` per byte. -/
abbrev Str := List Char

/-! ## Primitives of `std::string` -/

/-- The call `s.substr(pos, count)`: it throws (`none`) when `pos > s.size()`, and otherwise
gives the characters `[pos, min (pos + count) s.size())`. -/
def substr (s : Str) (pos count : Nat) : Option Str :=
  if pos ≤ s.length then some ((s.drop pos).take count) else none

/-- The call `s.substr(pos)`, the count defaulting to `npos`. -/
def substr_npos (s : Str) (pos : Nat) : Option Str :=
  if pos ≤ s.length then some (s.drop pos) else none

/-- The call `hay.find(needle)`: position of the first occurrence of `needle` in `hay`, `none` for
`std::string::npos`. The empty needle is found at position 0. -/
def find : Str → Str → Option Nat
  | [], needle => if needle = [] then some 0 else none
  | c :: s, needle =>
    if needle.isPrefixOf (c :: s) then some 0 else (find s needle).map (· + 1)

/-! ## Marker tables -/

/-- Start markers, `MS_LUT[7]`. -/
def MS_LUT : List Str :=
  [[], ['+'], ['#'], ['$'], ['%'], ['\\'], ['&']]

/-- End markers, `ME_LUT[6]`. -/
def ME_LUT : List Str :=
  [[], ['=', '?'], ['?'], ['='], [':'], ['\r']]

/-- The table access `lut[id]`; the code only uses indices inside the table. -/
def entry (lut : List Str) (id : Nat) : Str := lut.getD id []

/-! ## AT command -/

/-- The struct `AtCommand`. -/
structure AtCommand where
  ms : Nat
  me : Nat
  cmd_id : Str
  cmd_payload : Str
  deriving DecidableEq, Repr

/-- The loop `for (id = 1; id < 7; id++) if (raw_cmd.substr(2,1) == MS_LUT[id]) ...` over the
remaining indices `ids`, where `first` is `raw_cmd.substr(2,1)`: the index of the first table
entry equal to `first`, and `0` (the initial `ms`) when the loop ends without a match. -/
def scanStart (first : Str) : List Nat → Nat
  | [] => 0
  | id :: ids => if first = entry MS_LUT id then id else scanStart first ids

/-- The loop `for (id = 1; id < 6; id++)` over the remaining indices `ids`, where `rest` is
`raw_cmd.substr(byte)`: the first index whose marker is found in `rest`, with `me_pos`. -/
def scanEnd (rest : Str) : List Nat → Option (Nat × Nat)
  | [] => none
  | id :: ids =>
    match find rest (entry ME_LUT id) with
    | some me_pos => some (id, me_pos)
    | none => scanEnd rest ids

/-- The constructor `AtCommand::AtCommand(const std::string & raw_cmd)` (the structure's own name
is taken by the type). The result is `none` when a `substr` call throws. -/
def AtCommand.construct (raw_cmd : Str) : Option AtCommand :=
  match substr raw_cmd 0 2 with
  | none => none
  | some head =>
    if head = ['A', 'T'] then
      if raw_cmd.length > 2 then
        match substr raw_cmd 2 1 with
        | none => none
        | some first =>
          let ms := scanStart first [1, 2, 3, 4, 5, 6]
          let byte := if ms = 0 then 2 else 3
          match substr_npos raw_cmd byte with
          | none => none
          | some rest =>
            match scanEnd rest [1, 2, 3, 4, 5] with
            | some (id, me_pos) =>
              match substr raw_cmd byte me_pos with
              | none => none
              | some name =>
                match substr_npos raw_cmd (byte + me_pos + (entry ME_LUT id).length) with
                | none => none
                | some payload =>
                  some { ms := ms, me := id, cmd_id := entry MS_LUT ms ++ name,
                         cmd_payload := payload }
            | none =>
              some { ms := ms, me := 0, cmd_id := entry MS_LUT ms ++ rest, cmd_payload := [] }
      else some { ms := 0, me := 0, cmd_id := [], cmd_payload := [] }
    else some { ms := 0, me := 0, cmd_id := [], cmd_payload := [] }

/-- The method `AtCommand::GetRawCommand`. -/
def AtCommand.GetRawCommand (c : AtCommand) : Str :=
  ['A', 'T'] ++ c.cmd_id ++ entry ME_LUT c.me ++ c.cmd_payload

/-! ## Numeric conversion -/

/-- The C-locale `isspace`. -/
def isspace (c : Char) : Bool :=
  c = ' ' || c = '\t' || c = '\n' || c = '\x0b' || c = '\x0c' || c = '\r'

/-- Value of a run of decimal digits, most significant first. -/
def digitsValue (ds : Str) : Nat :=
  ds.foldl (fun acc c => 10 * acc + (c.toNat - '0'.toNat)) 0

/-- The function `std::stoi(str)` (base 10, through `strtol`): leading whitespace is skipped, one optional sign
is read, then the longest run of decimal digits; what follows is ignored. `none` stands for a
thrown exception: `std::invalid_argument` when there is no digit, `std::out_of_range` when the
value does not fit an `int`. -/
def stoi (str : Str) : Option Int :=
  let s1 := str.dropWhile isspace
  let neg := s1.head? = some '-'
  let s2 := if s1.head? = some '-' ∨ s1.head? = some '+' then s1.tail else s1
  let ds := s2.takeWhile Char.isDigit
  if ds = [] then none
  else
    let v : Int := if neg then -(digitsValue ds : Int) else (digitsValue ds : Int)
    if -2147483648 ≤ v ∧ v ≤ 2147483647 then some v else none

/-! ## Parser tree -/

/-- The enum `ErrorCode`. -/
inductive ErrorCode where
  | GZAT_SUCCESS
  | GZAT_ERROR
  | GZAT_NOT_SUPPORTED
  deriving DecidableEq, Repr

/-- The concrete classes deriving from `Parser`, each with what its constructor stores. -/
inductive Kind where
  | CommandParser (cmd_req : AtCommand)
  | CommaSplitParser (pos_in : Nat)
  | NameValueParser (pos_in : Nat)
  | ParenthesesParser (pos_in : Nat)
  deriving DecidableEq, Repr

/-- A node of class `Parser`: its dynamic class, the three output pointers (`none` is `nullptr`)
and `child_parsers`. A child is held by value: the tree is the one reached through the shared
pointers when `Parse` is called. -/
inductive Parser where
  | mk (kind : Kind) (int_out double_out string_out : Option Nat) (child_parsers : List Parser)

/-- The constructor `Parser::Parser()` for a node of class `kind`: no output bound, no child. -/
def Parser.new (kind : Kind) : Parser := .mk kind none none none []

/-- The method `Parser::AddChildParser`. -/
def Parser.AddChildParser : Parser → Parser → Parser
  | .mk k i d s cs, parser => .mk k i d s (cs ++ [parser])

/-- The method `Parser::AddIntegerOutput`. -/
def Parser.AddIntegerOutput : Parser → Nat → Parser
  | .mk k _ d s cs, out => .mk k (some out) d s cs

/-- The method `Parser::AddFloatOutput`. -/
def Parser.AddFloatOutput : Parser → Nat → Parser
  | .mk k i _ s cs, out => .mk k i (some out) s cs

/-- The method `Parser::AddStringOutput`. -/
def Parser.AddStringOutput : Parser → Nat → Parser
  | .mk k i d _ cs, out => .mk k i d (some out) cs

/-- Caller-owned storage the output pointers refer to, by address and by type; `F` is the type
of `double` values. The ghost field `calls` records, in order, every call `(*iter)->Parse(parsed)`
made by the child loop of `CastOutput`: the callee and its argument. -/
structure Memory (F : Type) where
  int64 : Nat → Int
  double : Nat → F
  string : Nat → Str
  calls : List (Parser × Str)

/-- How a call ends: it returns an `ErrorCode`, a `std::exception` leaves it, or it has run into
undefined behaviour (an out-of-bounds `operator[]`). -/
inductive Outcome where
  | returned (err : ErrorCode)
  | thrown
  | undefined
  deriving DecidableEq, Repr

/-- What the part of a `Parse` override before its `CastOutput` call yields: the argument of
`CastOutput`, or the way `Parse` ends without calling it. -/
inductive Isolated where
  | field (parsed : Str)
  | stop (o : Outcome)
  deriving DecidableEq, Repr

/-- Lift a `substr` result: a throw ends the call. -/
def Isolated.ofSubstr : Option Str → Isolated
  | some parsed => .field parsed
  | none => .stop .thrown

/-- The method `CommandParser::Parse` up to its `CastOutput` call (the writes to `std::cout` are left out). -/
def CommandParser.isolate (cmd_req : AtCommand) (response : Str) : Isolated :=
  match find response cmd_req.cmd_id with
  | none => .stop (.returned .GZAT_ERROR)
  | some s_pos => Isolated.ofSubstr (substr_npos response (s_pos + cmd_req.cmd_id.length + 1))

/-- The `while` loop of `CommaSplitParser::Parse` with `n = pos_in - pos_cur` rounds left. -/
def CommaSplitParser.skip : Nat → Str → Isolated
  | 0, response_cache => .field response_cache
  | n + 1, response_cache =>
    match find response_cache [','] with
    | none => .stop (.returned .GZAT_ERROR)
    | some s_pos =>
      match substr_npos response_cache (s_pos + 1) with
      | none => .stop .thrown
      | some rest => CommaSplitParser.skip n rest

/-- The method `CommaSplitParser::Parse` up to its `CastOutput` call. -/
def CommaSplitParser.isolate (pos_in : Nat) (response : Str) : Isolated :=
  match CommaSplitParser.skip pos_in response with
  | .stop o => .stop o
  | .field response_cache =>
    let e_pos :=
      match find response_cache [','] with
      | some e => some e
      | none => find response_cache ['\r']
    match e_pos with
    | none => Isolated.ofSubstr (substr_npos response_cache 0)
    | some e => Isolated.ofSubstr (substr response_cache 0 e)

/-- The method `ParenthesesParser::Parse` up to its `CastOutput` call. -/
def ParenthesesParser.isolate (response : Str) : Isolated :=
  match find response ['('] with
  | none => .stop (.returned .GZAT_ERROR)
  | some s_pos =>
    match substr_npos response (s_pos + 1) with
    | none => .stop .thrown
    | some tail =>
      match find tail [')'] with
      | none => .stop (.returned .GZAT_ERROR)
      | some e_pos => Isolated.ofSubstr (substr response (s_pos + 1) e_pos)

/-- The four `Parse` overrides up to their `CastOutput` call. -/
def Kind.isolate : Kind → Str → Isolated
  | .CommandParser cmd_req, response => CommandParser.isolate cmd_req response
  | .CommaSplitParser pos_in, response => CommaSplitParser.isolate pos_in response
  | .NameValueParser _, _ => .stop (.returned .GZAT_NOT_SUPPORTED)
  | .ParenthesesParser _, response => ParenthesesParser.isolate response

/-- The method `Parser::CastOutput`, given the conversion `stod` and the loop over `child_parsers` as
`children`. A throw of `stoi`, `stod` or of a child is caught and becomes `GZAT_ERROR`. In the
string branch `(*string_out)[0]` of an empty string is the terminating null character, and
`(*string_out)[string_out->size()-1]` of an empty string is out of bounds. -/
def CastOutput {F : Type} (stod : Str → Option F) (int_out double_out string_out : Option Nat)
    (children : Str → Memory F → Outcome × Memory F) (parsed : Str) (m : Memory F) :
    Outcome × Memory F :=
  match int_out with
  | some out =>
    match stoi parsed with
    | some v => (.returned .GZAT_SUCCESS, { m with int64 := Function.update m.int64 out v })
    | none => (.returned .GZAT_ERROR, m)
  | none =>
    match double_out with
    | some out =>
      match stod parsed with
      | some v => (.returned .GZAT_SUCCESS, { m with double := Function.update m.double out v })
      | none => (.returned .GZAT_ERROR, m)
    | none =>
      match string_out with
      | some out =>
        let s1 := if parsed.head? = some '"' then parsed.tail else parsed
        match s1.getLast? with
        | none => (.undefined, { m with string := Function.update m.string out s1 })
        | some c =>
          let s2 := if c = '"' then s1.dropLast else s1
          (.returned .GZAT_SUCCESS, { m with string := Function.update m.string out s2 })
      | none =>
        match children parsed m with
        | (.thrown, m1) => (.returned .GZAT_ERROR, m1)
        | r => r

mutual
/-- The virtual method `Parser::Parse`. -/
def Parser.Parse {F : Type} (stod : Str → Option F) :
    Parser → Str → Memory F → Outcome × Memory F
  | .mk kind int_out double_out string_out child_parsers, response, m =>
    match kind.isolate response with
    | .stop o => (o, m)
    | .field parsed =>
      CastOutput stod int_out double_out string_out (Parser.ParseChildren stod child_parsers)
        parsed m
/-- The loop over `child_parsers` in `Parser::CastOutput`, started with `ret == GZAT_SUCCESS`:
it goes on while the children return `GZAT_SUCCESS`. -/
def Parser.ParseChildren {F : Type} (stod : Str → Option F) :
    List Parser → Str → Memory F → Outcome × Memory F
  | [], _, m => (.returned .GZAT_SUCCESS, m)
  | child :: rest, parsed, m =>
    match Parser.Parse stod child parsed { m with calls := m.calls ++ [(child, parsed)] } with
    | (.returned .GZAT_SUCCESS, m1) => Parser.ParseChildren stod rest parsed m1
    | r => r
end


/-! ## Vocabulary of the specification -/

/-- The text after `"AT"` and after the start-marker character if one is present, given the
text `body` after `"AT"`. -/
def afterStartMarker : Str → Str
  | [] => []
  | c :: t => if [c] ∈ MS_LUT then t else c :: t

/-- The start-marker literal of the text `body` after `"AT"`: its first character when that is a
start marker, and the empty text otherwise. -/
def startMarkerLiteral : Str → Str
  | [] => []
  | c :: _ => if [c] ∈ MS_LUT then [c] else []

/-- The decimal numeral of an integer: a minus sign when it is negative, then the digits of its
absolute value, most significant first and without leading zeros. -/
def decimal : Int → Str
  | .ofNat n => Nat.toDigits 10 n
  | .negSucc n => '-' :: Nat.toDigits 10 (n + 1)

/-- A caller memory for the examples: every integer slot holds 0, every string slot is empty, the
type of `double` values is trivial, and no call has been made. -/
def exampleMemory : Memory Unit :=
  { int64 := fun _ => 0, double := fun _ => (), string := fun _ => [], calls := [] }

/-- The children `cs` are called in order, each on the same text `t`, every one of them returns
`GZAT_SUCCESS`, and they turn the memory `m` into `m1`. -/
def succeedInOrder {F : Type} (stod : Str → Option F) (t : Str) :
    List Parser → Memory F → Memory F → Prop
  | [], m, m1 => m1 = m
  | c :: cs, m, m1 =>
    ∃ m2, Parser.Parse stod c t { m with calls := m.calls ++ [(c, t)] }
        = (.returned .GZAT_SUCCESS, m2) ∧ succeedInOrder stod t cs m2 m1

/-- The text after its leading whitespace and after one sign character, if there is one. -/
def afterBlanksAndSign (text : Str) : Str :=
  match text.dropWhile isspace with
  | '+' :: t => t
  | '-' :: t => t
  | s => s

/-- The text with its first character removed if that is a double quote, and then its last
character removed if that is a double quote. -/
def stripQuotes (text : Str) : Str :=
  let a := if text.head? = some '"' then text.tail else text
  if a.getLast? = some '"' then a.dropLast else a

/-! # Theorems -/
/-! ## Facts about `find` -/

theorem isPrefixOf_true {n h : Str} : n.isPrefixOf h = true ↔ n <+: h :=
  List.isPrefixOf_iff_prefix

theorem find_nil_needle (h : Str) : find h [] = some 0 := by
  cases h <;> simp [find]

theorem find_some_starts : ∀ (h n : Str) (p : Nat), find h n = some p → n <+: h.drop p
  | [], n, p, hf => by
    by_cases hn : n = []
    · subst hn; simp
    · simp [find, hn] at hf
  | c :: s, n, p, hf => by
    unfold find at hf
    split at hf
    · rename_i hp
      simp at hf
      subst hf
      simpa using isPrefixOf_true.mp hp
    · cases hfs : find s n with
      | none => simp [hfs] at hf
      | some q =>
        simp [hfs] at hf
        subst hf
        simpa using find_some_starts s n q hfs

theorem find_some_le : ∀ (h n : Str) (p : Nat), find h n = some p → p + n.length ≤ h.length
  | [], n, p, hf => by
    by_cases hn : n = []
    · subst hn; simp [find] at hf; simp [← hf]
    · simp [find, hn] at hf
  | c :: s, n, p, hf => by
    unfold find at hf
    split at hf
    · rename_i hp
      simp at hf
      subst hf
      have := (isPrefixOf_true.mp hp).length_le
      simpa using this
    · cases hfs : find s n with
      | none => simp [hfs] at hf
      | some q =>
        simp [hfs] at hf
        subst hf
        have := find_some_le s n q hfs
        simp; omega

theorem find_some_first : ∀ (h n : Str) (p : Nat), find h n = some p →
    ∀ q, q < p → ¬ n <+: h.drop q
  | [], n, p, hf => by
    by_cases hn : n = []
    · subst hn; simp [find] at hf; omega
    · simp [find, hn] at hf
  | c :: s, n, p, hf => by
    unfold find at hf
    split at hf
    · simp at hf; omega
    · rename_i hp
      cases hfs : find s n with
      | none => simp [hfs] at hf
      | some r =>
        simp [hfs] at hf
        subst hf
        intro q hq
        cases q with
        | zero =>
          intro hpre
          exact hp (isPrefixOf_true.mpr (by simpa using hpre))
        | succ q =>
          simpa using find_some_first s n r hfs q (by omega)

theorem find_none_absent : ∀ (h n : Str), find h n = none → ¬ n <:+: h
  | [], n, hf => by
    by_cases hn : n = []
    · subst hn; simp [find] at hf
    · simp [find, hn] at hf
      simpa using hn
  | c :: s, n, hf => by
    unfold find at hf
    split at hf
    · simp at hf
    · rename_i hp
      cases hfs : find s n with
      | some r => simp [hfs] at hf
      | none =>
        have ih := find_none_absent s n hfs
        intro hin
        rcases List.infix_cons_iff.mp hin with h1 | h2
        · exact hp (isPrefixOf_true.mpr h1)
        · exact ih h2

theorem find_some_split (h n : Str) (p : Nat) (hf : find h n = some p) :
    h = h.take p ++ n ++ h.drop (p + n.length) := by
  obtain ⟨t, ht⟩ := find_some_starts h n p hf
  have h1 : h = h.take p ++ h.drop p := (List.take_append_drop p h).symm
  have h2 : h.drop (p + n.length) = t := by
    rw [← List.drop_drop, ← ht]
    simp
  rw [h2, List.append_assoc, ht]
  exact h1


/-! ## Facts about the tokenizer loops -/

theorem scanEnd_none (rest : Str) : ∀ ids : List Nat, scanEnd rest ids = none →
    ∀ k ∈ ids, find rest (entry ME_LUT k) = none
  | [], _, k, hk => by simp at hk
  | id :: ids, h, k, hk => by
    unfold scanEnd at h
    cases hf : find rest (entry ME_LUT id) with
    | some p => simp only [hf] at h; exact absurd h (by simp)
    | none =>
      simp only [hf] at h
      rcases List.mem_cons.mp hk with rfl | hk
      · exact hf
      · exact scanEnd_none rest ids h k hk

theorem scanEnd_some (rest : Str) : ∀ (ids : List Nat) (id p : Nat),
    scanEnd rest ids = some (id, p) →
    ∃ l1 l2, ids = l1 ++ id :: l2 ∧ (∀ k ∈ l1, find rest (entry ME_LUT k) = none) ∧
      find rest (entry ME_LUT id) = some p
  | [], _, _, h => by simp [scanEnd] at h
  | a :: ids, id, p, h => by
    unfold scanEnd at h
    cases hf : find rest (entry ME_LUT a) with
    | some q =>
      simp only [hf, Option.some.injEq, Prod.mk.injEq] at h
      obtain ⟨rfl, rfl⟩ := h
      exact ⟨[], ids, rfl, by simp, hf⟩
    | none =>
      simp only [hf] at h
      obtain ⟨l1, l2, e, hn, hs⟩ := scanEnd_some rest ids id p h
      refine ⟨a :: l1, l2, by simp [e], ?_, hs⟩
      intro k hk
      rcases List.mem_cons.mp hk with rfl | hk
      · exact hf
      · exact hn k hk

/-- The tokenizer on `"AT" + MS_LUT[i] + rest`, where for `i = 0` the text `rest` does not start
with a start-marker character: the result in terms of the end-marker loop alone. -/
theorem construct_shape (i : Nat) (rest : Str) (hi : i ≤ 6)
    (h0 : i = 0 → ∀ c ∈ rest.head?, [c] ∉ MS_LUT) :
    AtCommand.construct (['A', 'T'] ++ entry MS_LUT i ++ rest) =
      some (match scanEnd rest [1, 2, 3, 4, 5] with
        | some (id, me_pos) =>
          { ms := i, me := id, cmd_id := entry MS_LUT i ++ rest.take me_pos,
            cmd_payload := rest.drop (me_pos + (entry ME_LUT id).length) }
        | none => { ms := i, me := 0, cmd_id := entry MS_LUT i ++ rest, cmd_payload := [] }) := by
  have key : ∀ (id p : Nat), scanEnd rest [1, 2, 3, 4, 5] = some (id, p) →
      p + (entry ME_LUT id).length ≤ rest.length := by
    intro id p h
    obtain ⟨_, _, _, _, hs⟩ := scanEnd_some rest _ id p h
    exact find_some_le _ _ _ hs
  rcases Nat.eq_zero_or_pos i with rfl | hpos
  · have e0 : entry MS_LUT 0 = [] := rfl
    rw [e0]
    cases rest with
    | nil => simp [AtCommand.construct, substr, scanEnd, find, entry, ME_LUT]
    | cons c r =>
      have hc : [c] ∉ MS_LUT := h0 rfl c (by simp)
      have hs : scanStart [c] [1, 2, 3, 4, 5, 6] = 0 := by
        simp [MS_LUT] at hc
        simp [scanStart, MS_LUT, entry, hc]
      cases hse : scanEnd (c :: r) [1, 2, 3, 4, 5] with
      | none =>
        simp [AtCommand.construct, substr, substr_npos, hs, hse, e0]
      | some ip =>
        obtain ⟨id, p⟩ := ip
        have hk := key id p hse
        simp only [List.length_cons] at hk
        have hk2 : 2 + p + (entry ME_LUT id).length ≤ r.length + 1 + 1 + 1 := by omega
        simp [AtCommand.construct, substr, substr_npos, hs, hse, e0, hk2]
        rw [show 2 + p + (entry ME_LUT id).length = (p + (entry ME_LUT id).length) + 2 by omega]
        rfl
  · have hm : ∃ c, entry MS_LUT i = [c] ∧ scanStart [c] [1, 2, 3, 4, 5, 6] = i := by
      interval_cases i <;> simp [MS_LUT, scanStart, entry]
    obtain ⟨c, hc, hs⟩ := hm
    have hi0 : i ≠ 0 := by omega
    rw [hc]
    cases hse : scanEnd rest [1, 2, 3, 4, 5] with
    | none =>
      simp [AtCommand.construct, substr, substr_npos, hc, hs, hse, hi0]
    | some ip =>
      obtain ⟨id, p⟩ := ip
      have hk := key id p hse
      have hk2 : 3 + p + (entry ME_LUT id).length ≤ rest.length + 1 + 1 + 1 := by omega
      simp [AtCommand.construct, substr, substr_npos, hc, hs, hse, hi0, hk2]
      rw [show 3 + p + (entry ME_LUT id).length = (p + (entry ME_LUT id).length) + 3 by omega]
      rfl

theorem find_not_mem (d : Char) (ds : Str) : ∀ h : Str, d ∉ h → find h (d :: ds) = none
  | [], _ => by simp [find]
  | c :: s, hd => by
    have h1 : d ≠ c := fun e => hd (by simp [e])
    have h2 : d ∉ s := fun e => hd (by simp [e])
    have hp : ¬ (d :: ds) <+: (c :: s) := by
      intro hpre
      exact h1 (List.cons_prefix_cons.mp hpre).1
    have hb : (d :: ds).isPrefixOf (c :: s) = false := by
      cases hx : (d :: ds).isPrefixOf (c :: s) with
      | false => rfl
      | true => exact absurd (isPrefixOf_true.mp hx) hp
    rw [find, hb, find_not_mem d ds s h2]
    rfl

theorem find_append_first (d : Char) (ds post : Str) : ∀ pre : Str, d ∉ pre →
    find (pre ++ (d :: ds) ++ post) (d :: ds) = some pre.length
  | [], _ => by
    have hb : (d :: ds).isPrefixOf ((d :: ds) ++ post) = true :=
      isPrefixOf_true.mpr (List.prefix_append _ _)
    show find ((d :: ds) ++ post) (d :: ds) = some 0
    rw [List.cons_append, find, ← List.cons_append, hb]
    rfl
  | c :: s, hd => by
    have h1 : d ≠ c := fun e => hd (by simp [e])
    have h2 : d ∉ s := fun e => hd (by simp [e])
    have hp : ¬ (d :: ds) <+: (c :: (s ++ (d :: ds) ++ post)) := by
      intro hpre
      exact h1 (List.cons_prefix_cons.mp hpre).1
    have hb : (d :: ds).isPrefixOf (c :: (s ++ (d :: ds) ++ post)) = false := by
      cases hx : (d :: ds).isPrefixOf (c :: (s ++ (d :: ds) ++ post)) with
      | false => rfl
      | true => exact absurd (isPrefixOf_true.mp hx) hp
    show find (c :: (s ++ (d :: ds) ++ post)) (d :: ds) = some (s.length + 1)
    rw [find, hb, find_append_first d ds post s h2]
    rfl

/-- Letters and digits are none of the characters of the two marker tables. -/
theorem alnum_not_marker (c : Char) (h : c.isAlphanum = true) :
    c ≠ '=' ∧ c ≠ '?' ∧ c ≠ ':' ∧ c ≠ '\r' ∧ [c] ∉ MS_LUT := by
  refine ⟨?_, ?_, ?_, ?_, ?_⟩
  · rintro rfl; exact absurd h (by decide)
  · rintro rfl; exact absurd h (by decide)
  · rintro rfl; exact absurd h (by decide)
  · rintro rfl; exact absurd h (by decide)
  · intro hm
    simp [MS_LUT] at hm
    rcases hm with rfl | rfl | rfl | rfl | rfl | rfl <;> exact absurd h (by decide)

theorem alnum_not_mem (name : Str) (h : ∀ c ∈ name, c.isAlphanum = true) :
    '=' ∉ name ∧ '?' ∉ name ∧ ':' ∉ name ∧ '\r' ∉ name := by
  refine ⟨?_, ?_, ?_, ?_⟩ <;> intro hm
  · exact (alnum_not_marker _ (h _ hm)).1 rfl
  · exact (alnum_not_marker _ (h _ hm)).2.1 rfl
  · exact (alnum_not_marker _ (h _ hm)).2.2.1 rfl
  · exact (alnum_not_marker _ (h _ hm)).2.2.2.1 rfl

theorem alnum_head (name rest : Str) (hne : name ≠ [])
    (h : ∀ c ∈ name, c.isAlphanum = true) : ∀ c ∈ (name ++ rest).head?, [c] ∉ MS_LUT := by
  cases name with
  | nil => exact absurd rfl hne
  | cons a t =>
    intro c hc
    simp at hc
    subst hc
    exact (alnum_not_marker _ (h _ (by simp))).2.2.2.2

/-- Every text after `"AT"` is a start-marker literal followed by a text that, when the literal is
empty, does not start with a start-marker character. -/
theorem body_split (body : Str) :
    ∃ i rest, i ≤ 6 ∧ (i = 0 → ∀ c ∈ rest.head?, [c] ∉ MS_LUT) ∧
      body = entry MS_LUT i ++ rest ∧ rest = afterStartMarker body ∧
      entry MS_LUT i = startMarkerLiteral body := by
  cases body with
  | nil => exact ⟨0, [], by omega, by simp, rfl, rfl, rfl⟩
  | cons c t =>
    by_cases hc : [c] ∈ MS_LUT
    · have hc2 := hc
      simp [MS_LUT] at hc2
      have e1 : afterStartMarker (c :: t) = t := by simp [afterStartMarker, hc]
      have e2 : startMarkerLiteral (c :: t) = [c] := by simp [startMarkerLiteral, hc]
      rw [e1, e2]
      rcases hc2 with rfl | rfl | rfl | rfl | rfl | rfl
      · exact ⟨1, t, by omega, by omega, rfl, rfl, rfl⟩
      · exact ⟨2, t, by omega, by omega, rfl, rfl, rfl⟩
      · exact ⟨3, t, by omega, by omega, rfl, rfl, rfl⟩
      · exact ⟨4, t, by omega, by omega, rfl, rfl, rfl⟩
      · exact ⟨5, t, by omega, by omega, rfl, rfl, rfl⟩
      · exact ⟨6, t, by omega, by omega, rfl, rfl, rfl⟩
    · have e1 : afterStartMarker (c :: t) = c :: t := by simp [afterStartMarker, hc]
      have e2 : startMarkerLiteral (c :: t) = [] := by simp [startMarkerLiteral, hc]
      rw [e1, e2]
      refine ⟨0, c :: t, by omega, ?_, rfl, rfl, rfl⟩
      intro _ d hd
      simp at hd
      subst hd
      exact hc

theorem scanEnd_some_sorted (rest : Str) (id p : Nat)
    (h : scanEnd rest [1, 2, 3, 4, 5] = some (id, p)) :
    1 ≤ id ∧ id ≤ 5 ∧ find rest (entry ME_LUT id) = some p ∧
      ∀ k, 1 ≤ k → k < id → find rest (entry ME_LUT k) = none := by
  obtain ⟨l1, l2, e, hn, hs⟩ := scanEnd_some rest _ id p h
  have hmem : id ∈ [1, 2, 3, 4, 5] := by rw [e]; simp
  have hpw : List.Pairwise (· < ·) (l1 ++ id :: l2) := by rw [← e]; decide
  have hlt : ∀ b ∈ l2, id < b := (List.pairwise_cons.mp (List.pairwise_append.mp hpw).2.1).1
  simp at hmem
  refine ⟨by omega, by omega, hs, ?_⟩
  intro k hk1 hk2
  have hkm : k ∈ l1 ++ id :: l2 := by
    rw [← e]
    have : k ≤ 5 := by omega
    interval_cases k <;> simp
  rcases List.mem_append.mp hkm with h1 | h1
  · exact hn k h1
  · rcases List.mem_cons.mp h1 with rfl | h2
    · omega
    · have := hlt k h2
      omega

/-! ## Claims about the tokenizer -/

/-- C1. Round trip of the tokenizer: for every string `raw` that begins with `"AT"`, the
constructor returns a command, and `GetRawCommand` of that command is `raw` itself. -/
theorem C1_round_trip (raw : Str) (hAT : ['A', 'T'] <+: raw) :
    ∃ cmd, AtCommand.construct raw = some cmd ∧ cmd.GetRawCommand = raw := by
  obtain ⟨body, rfl⟩ := hAT
  obtain ⟨i, rest, hi, h0, hb, -, -⟩ := body_split body
  subst hb
  rw [← List.append_assoc, construct_shape i rest hi h0]
  refine ⟨_, rfl, ?_⟩
  cases hse : scanEnd rest [1, 2, 3, 4, 5] with
  | none =>
    have e0 : entry ME_LUT 0 = [] := rfl
    simp [AtCommand.GetRawCommand, e0]
  | some ip =>
    obtain ⟨id, p⟩ := ip
    obtain ⟨-, -, hf, -⟩ := scanEnd_some_sorted rest id p hse
    have hsplit := find_some_split rest _ p hf
    simp only [AtCommand.GetRawCommand]
    conv_rhs => rw [hsplit]
    simp [List.append_assoc]

/-- C1, at the command of the test `Construct_MS_Set`. -/
theorem C1_round_trip_witness :
    ['A', 'T'] <+: "AT+ABC=1,\"abc\"".toList ∧
    ∃ cmd, AtCommand.construct "AT+ABC=1,\"abc\"".toList = some cmd ∧
      cmd.GetRawCommand = "AT+ABC=1,\"abc\"".toList :=
  ⟨by decide, C1_round_trip "AT+ABC=1,\"abc\"".toList (by decide)⟩

/-- C2. End-marker selection by table order: for every `raw` beginning with `"AT"`, with `rest`
the text after `"AT"` and after the start-marker character if one is present, the constructor
returns a command such that: if no `ME_LUT[j]`, `j` in 1..5, occurs in `rest`, then `me = 0`,
`cmd_id` is the start-marker literal followed by `rest`, and `cmd_payload` is empty; and if `j` is
the smallest index in 1..5 whose marker occurs in `rest`, then `me = j`, and `rest` splits at the
first occurrence of `ME_LUT[j]` into `pre` and `post` with `cmd_id` the start-marker literal
followed by `pre` and `cmd_payload = post`. -/
theorem C2_end_marker_table_order (raw : Str) (hAT : ['A', 'T'] <+: raw) :
    ∃ cmd, AtCommand.construct raw = some cmd ∧
      ((∀ j, 1 ≤ j → j ≤ 5 → ¬ entry ME_LUT j <:+: afterStartMarker (raw.drop 2)) →
        cmd.me = 0 ∧
        cmd.cmd_id = startMarkerLiteral (raw.drop 2) ++ afterStartMarker (raw.drop 2) ∧
        cmd.cmd_payload = []) ∧
      (∀ j, 1 ≤ j → j ≤ 5 → entry ME_LUT j <:+: afterStartMarker (raw.drop 2) →
        (∀ k, 1 ≤ k → k < j → ¬ entry ME_LUT k <:+: afterStartMarker (raw.drop 2)) →
        cmd.me = j ∧
        ∃ pre post, afterStartMarker (raw.drop 2) = pre ++ entry ME_LUT j ++ post ∧
          (∀ pre1 post1, afterStartMarker (raw.drop 2) = pre1 ++ entry ME_LUT j ++ post1 →
            pre.length ≤ pre1.length) ∧
          cmd.cmd_id = startMarkerLiteral (raw.drop 2) ++ pre ∧
          cmd.cmd_payload = post) := by
  obtain ⟨body, rfl⟩ := hAT
  obtain ⟨i, rest, hi, h0, hb, hrest, hlit⟩ := body_split body
  have hd : (['A', 'T'] ++ body).drop 2 = body := rfl
  rw [hd, ← hrest, ← hlit, hb, ← List.append_assoc, construct_shape i rest hi h0]
  refine ⟨_, rfl, ?_⟩
  cases hse : scanEnd rest [1, 2, 3, 4, 5] with
  | none =>
    have hn := scanEnd_none rest _ hse
    refine ⟨fun _ => ⟨rfl, rfl, rfl⟩, ?_⟩
    intro j hj1 hj5 hin _
    have hjm : j ∈ [1, 2, 3, 4, 5] := by interval_cases j <;> simp
    exact absurd hin (find_none_absent _ _ (hn j hjm))
  | some ip =>
    obtain ⟨id, p⟩ := ip
    obtain ⟨h1, h5, hf, hearlier⟩ := scanEnd_some_sorted rest id p hse
    have hin : entry ME_LUT id <:+: rest :=
      ⟨rest.take p, rest.drop (p + (entry ME_LUT id).length), (find_some_split rest _ p hf).symm⟩
    refine ⟨fun hno => absurd hin (hno id h1 h5), ?_⟩
    intro j hj1 hj5 hjin hjmin
    have hji : j = id := by
      rcases Nat.lt_trichotomy j id with hlt | heq | hgt
      · exact absurd hjin (find_none_absent _ _ (hearlier j hj1 hlt))
      · exact heq
      · exact absurd hin (hjmin id h1 hgt)
    subst hji
    refine ⟨rfl, rest.take p, rest.drop (p + (entry ME_LUT j).length),
      find_some_split rest _ p hf, ?_, rfl, rfl⟩
    intro pre1 post1 hsp
    by_contra hlt
    have hle := find_some_le rest _ p hf
    have htk : (rest.take p).length = p := by
      rw [List.length_take]
      omega
    have hq : pre1.length < p := by omega
    apply find_some_first rest _ p hf pre1.length hq
    rw [hsp, List.append_assoc, List.drop_left]
    exact List.prefix_append _ _

/-- C2, at `"AT+A=1?"`: the marker `?` (index 2) wins over `=` (index 3), which occurs further
left, and `cmd_id` is `"+A=1"`. -/
theorem C2_end_marker_table_order_witness :
    ['A', 'T'] <+: "AT+A=1?".toList ∧
    AtCommand.construct "AT+A=1?".toList =
      some { ms := 1, me := 2, cmd_id := "+A=1".toList, cmd_payload := [] } ∧
    ∃ cmd, AtCommand.construct "AT+A=1?".toList = some cmd ∧
      ((∀ j, 1 ≤ j → j ≤ 5 → ¬ entry ME_LUT j <:+: afterStartMarker ("AT+A=1?".toList.drop 2)) →
        cmd.me = 0 ∧
        cmd.cmd_id = startMarkerLiteral ("AT+A=1?".toList.drop 2) ++
          afterStartMarker ("AT+A=1?".toList.drop 2) ∧
        cmd.cmd_payload = []) ∧
      (∀ j, 1 ≤ j → j ≤ 5 → entry ME_LUT j <:+: afterStartMarker ("AT+A=1?".toList.drop 2) →
        (∀ k, 1 ≤ k → k < j → ¬ entry ME_LUT k <:+: afterStartMarker ("AT+A=1?".toList.drop 2)) →
        cmd.me = j ∧
        ∃ pre post, afterStartMarker ("AT+A=1?".toList.drop 2) = pre ++ entry ME_LUT j ++ post ∧
          (∀ pre1 post1,
            afterStartMarker ("AT+A=1?".toList.drop 2) = pre1 ++ entry ME_LUT j ++ post1 →
            pre.length ≤ pre1.length) ∧
          cmd.cmd_id = startMarkerLiteral ("AT+A=1?".toList.drop 2) ++ pre ∧
          cmd.cmd_payload = post) :=
  ⟨by decide, by decide, C2_end_marker_table_order "AT+A=1?".toList (by decide)⟩

theorem find_none_of_absent (h n : Str) (hn : ¬ n <:+: h) : find h n = none := by
  cases hf : find h n with
  | none => rfl
  | some p =>
    exact absurd ⟨h.take p, h.drop (p + n.length), (find_some_split h n p hf).symm⟩ hn

theorem scanEnd_alnum (name : Str) (hal : ∀ c ∈ name, c.isAlphanum = true) :
    scanEnd name [1, 2, 3, 4, 5] = none := by
  obtain ⟨h1, h2, h3, h4⟩ := alnum_not_mem name hal
  simp [scanEnd, entry, ME_LUT, find_not_mem _ _ name h1, find_not_mem _ _ name h2,
    find_not_mem _ _ name h3, find_not_mem _ _ name h4]

/-- C3 (amended). Set commands whose payload holds no `?`: for every start marker (table index
`i` in 1..6), every non-empty name made only of ASCII letters and digits, and every payload `p`
in which `?` does not occur, the constructor on `"AT" + MS_LUT[i] + name + "=" + p` returns
`ms = i`, `me = 3`, `cmd_id = MS_LUT[i] + name` and `cmd_payload = p`. -/
theorem C3_set_command (i : Nat) (name p : Str) (_hi1 : 1 ≤ i) (hi6 : i ≤ 6) (_hne : name ≠ [])
    (hal : ∀ c ∈ name, c.isAlphanum = true) (hp : '?' ∉ p) :
    AtCommand.construct (['A', 'T'] ++ entry MS_LUT i ++ name ++ ['='] ++ p) =
      some { ms := i, me := 3, cmd_id := entry MS_LUT i ++ name, cmd_payload := p } := by
  obtain ⟨h1, h2, -, -⟩ := alnum_not_mem name hal
  have hq : '?' ∉ name ++ ['='] ++ p := by simp [h2, hp]
  have f1 : find (name ++ ['='] ++ p) ['=', '?'] = none := by
    apply find_none_of_absent
    intro hin
    exact hq (hin.subset (by simp))
  have f2 : find (name ++ ['='] ++ p) ['?'] = none := find_not_mem _ _ _ hq
  have f3 : find (name ++ ['='] ++ p) ['='] = some name.length :=
    find_append_first '=' [] p name h1
  have hs : scanEnd (name ++ ['='] ++ p) [1, 2, 3, 4, 5] = some (3, name.length) := by
    simp only [scanEnd, entry, ME_LUT, List.getD_cons_succ, List.getD_cons_zero, f1, f2, f3]
  have hshape := construct_shape i (name ++ ['='] ++ p) hi6 (by omega)
  rw [hs] at hshape
  have e3 : entry ME_LUT 3 = ['='] := rfl
  simp only [← List.append_assoc] at hshape
  rw [hshape]
  simp [e3, List.append_assoc]

/-- C3 (amended), at the command of the test `Construct_MS_Set`. -/
theorem C3_set_command_witness :
    (1 ≤ 1 ∧ 1 ≤ 6) ∧ "ABC".toList ≠ [] ∧ (∀ c ∈ "ABC".toList, c.isAlphanum = true) ∧
    '?' ∉ "1,\"abc\"".toList ∧
    AtCommand.construct (['A', 'T'] ++ entry MS_LUT 1 ++ "ABC".toList ++ ['='] ++
        "1,\"abc\"".toList) =
      some { ms := 1, me := 3, cmd_id := entry MS_LUT 1 ++ "ABC".toList,
             cmd_payload := "1,\"abc\"".toList } :=
  ⟨by decide, by decide, by decide, by decide,
    C3_set_command 1 "ABC".toList "1,\"abc\"".toList (by decide) (by decide) (by decide)
      (by decide) (by decide)⟩

/-- C3 as stated fails at `AT+ABC=1,"a?"`: the marker index is 1, the name `ABC` is non-empty
and alphanumeric, the payload `1,"a?"` does not begin with `?`, and yet the constructor returns
`me = 2` (Get), `cmd_id = +ABC=1,"a` and the payload `"`, not `me = 3`, `cmd_id = +ABC` and the
payload `1,"a?"`. -/
theorem C3_set_command_counterexample :
    (1 ≤ 1 ∧ 1 ≤ 6) ∧ "ABC".toList ≠ [] ∧ (∀ c ∈ "ABC".toList, c.isAlphanum = true) ∧
    "1,\"a?\"".toList.head? ≠ some '?' ∧
    AtCommand.construct (['A', 'T'] ++ entry MS_LUT 1 ++ "ABC".toList ++ ['='] ++
        "1,\"a?\"".toList) =
      some { ms := 1, me := 2, cmd_id := "+ABC=1,\"a".toList, cmd_payload := "\"".toList } ∧
    AtCommand.construct (['A', 'T'] ++ entry MS_LUT 1 ++ "ABC".toList ++ ['='] ++
        "1,\"a?\"".toList) ≠
      some { ms := 1, me := 3, cmd_id := entry MS_LUT 1 ++ "ABC".toList,
             cmd_payload := "1,\"a?\"".toList } := by
  decide

/-- C4. Payload-free command forms: for every start-marker index `i` in 0..6, every non-empty
name made only of ASCII letters and digits, and every end-marker index `j` among 1 (Test), 2 (Get)
and 5 (Exec), the constructor on `"AT" + MS_LUT[i] + name + ME_LUT[j]` returns `ms = i`, `me = j`,
`cmd_id = MS_LUT[i] + name` and an empty `cmd_payload`. -/
theorem C4_payload_free (i j : Nat) (name : Str) (hi : i ≤ 6) (hj : j = 1 ∨ j = 2 ∨ j = 5)
    (hne : name ≠ []) (hal : ∀ c ∈ name, c.isAlphanum = true) :
    AtCommand.construct (['A', 'T'] ++ entry MS_LUT i ++ name ++ entry ME_LUT j) =
      some { ms := i, me := j, cmd_id := entry MS_LUT i ++ name, cmd_payload := [] } := by
  obtain ⟨h1, h2, h3, h4⟩ := alnum_not_mem name hal
  have hshape := construct_shape i (name ++ entry ME_LUT j) hi
    (fun _ => alnum_head name _ hne hal)
  have hs : scanEnd (name ++ entry ME_LUT j) [1, 2, 3, 4, 5] = some (j, name.length) := by
    rcases hj with rfl | rfl | rfl
    · have f1 : find (name ++ ['=', '?']) ['=', '?'] = some name.length := by
        simpa using find_append_first '=' ['?'] [] name h1
      simp only [scanEnd, entry, ME_LUT, List.getD_cons_succ, List.getD_cons_zero, f1]
    · have f1 : find (name ++ ['?']) ['=', '?'] = none :=
        find_not_mem _ _ _ (by simp [h1])
      have f2 : find (name ++ ['?']) ['?'] = some name.length := by
        simpa using find_append_first '?' [] [] name h2
      simp only [scanEnd, entry, ME_LUT, List.getD_cons_succ, List.getD_cons_zero, f1, f2]
    · have f1 : find (name ++ ['\r']) ['=', '?'] = none :=
        find_not_mem _ _ _ (by simp [h1])
      have f2 : find (name ++ ['\r']) ['?'] = none :=
        find_not_mem _ _ _ (by simp [h2])
      have f3 : find (name ++ ['\r']) ['='] = none :=
        find_not_mem _ _ _ (by simp [h1])
      have f4 : find (name ++ ['\r']) [':'] = none :=
        find_not_mem _ _ _ (by simp [h3])
      have f5 : find (name ++ ['\r']) ['\r'] = some name.length := by
        simpa using find_append_first '\r' [] [] name h4
      simp only [scanEnd, entry, ME_LUT, List.getD_cons_succ, List.getD_cons_zero, f1, f2, f3,
        f4, f5]
  rw [hs] at hshape
  simp only [← List.append_assoc] at hshape
  rw [hshape]
  simp

/-- C4, at the command of the test `Construct_MS_Test`. -/
theorem C4_payload_free_witness :
    2 ≤ 6 ∧ ((1 : Nat) = 1 ∨ (1 : Nat) = 2 ∨ (1 : Nat) = 5) ∧ "Z".toList ≠ [] ∧
    (∀ c ∈ "Z".toList, c.isAlphanum = true) ∧
    AtCommand.construct (['A', 'T'] ++ entry MS_LUT 2 ++ "Z".toList ++ entry ME_LUT 1) =
      some { ms := 2, me := 1, cmd_id := entry MS_LUT 2 ++ "Z".toList, cmd_payload := [] } :=
  ⟨by decide, by decide, by decide, by decide,
    C4_payload_free 2 1 "Z".toList (by decide) (by decide) (by decide) (by decide)⟩

/-- C5. Commands without an end marker: for every start-marker index `i` in 0..6 (0 meaning no
marker character) and every non-empty name made only of ASCII letters and digits, the constructor
on `"AT" + MS_LUT[i] + name` returns `ms = i`, `me = 0`, `cmd_id = MS_LUT[i] + name` and an empty
`cmd_payload`. -/
theorem C5_no_end_marker (i : Nat) (name : Str) (hi : i ≤ 6) (hne : name ≠ [])
    (hal : ∀ c ∈ name, c.isAlphanum = true) :
    AtCommand.construct (['A', 'T'] ++ entry MS_LUT i ++ name) =
      some { ms := i, me := 0, cmd_id := entry MS_LUT i ++ name, cmd_payload := [] } := by
  have hshape := construct_shape i name hi
    (fun _ => by simpa using alnum_head name [] hne hal)
  rw [scanEnd_alnum name hal] at hshape
  exact hshape

/-- C5, at `"ATZ"`: no marker character, `ms = 0` and `cmd_id = "Z"`. -/
theorem C5_no_end_marker_witness :
    0 ≤ 6 ∧ "Z".toList ≠ [] ∧ (∀ c ∈ "Z".toList, c.isAlphanum = true) ∧
    AtCommand.construct (['A', 'T'] ++ entry MS_LUT 0 ++ "Z".toList) =
      some { ms := 0, me := 0, cmd_id := entry MS_LUT 0 ++ "Z".toList, cmd_payload := [] } :=
  ⟨by decide, by decide, by decide,
    C5_no_end_marker 0 "Z".toList (by decide) (by decide) (by decide)⟩

/-- C6. Lenient rejection of non-AT input: for every string `raw` that does not begin with the
two characters `"AT"` (the empty string and one-character strings included), the constructor
does not throw and returns `ms = 0`, `me = 0`, an empty `cmd_id` and an empty `cmd_payload`. -/
theorem C6_non_AT (raw : Str) (h : ¬ ['A', 'T'] <+: raw) :
    AtCommand.construct raw = some { ms := 0, me := 0, cmd_id := [], cmd_payload := [] } := by
  have ht : raw.take 2 ≠ ['A', 'T'] := by
    intro e
    exact h (e ▸ List.take_prefix 2 raw)
  simp [AtCommand.construct, substr, ht]

/-- C6, at the one-character string `"A"`. -/
theorem C6_non_AT_witness :
    ¬ ['A', 'T'] <+: "A".toList ∧
    AtCommand.construct "A".toList = some { ms := 0, me := 0, cmd_id := [], cmd_payload := [] } :=
  ⟨by decide, C6_non_AT "A".toList (by decide)⟩

/-! ## Facts about the comma-split isolation -/

theorem find_singleton_cons (a c : Char) (r : Str) :
    find (a :: r) [c] = if c = a then some 0 else (find r [c]).map (· + 1) := by
  by_cases h : c = a
  · subst h
    simp [find, List.isPrefixOf]
  · have hb : [c].isPrefixOf (a :: r) = false := by simp [List.isPrefixOf, h]
    rw [find, hb]
    simp [h]

/-- A one-character needle that is found splits the text at its first occurrence. -/
theorem find_singleton_some (c : Char) : ∀ (r : Str) (s : Nat), find r [c] = some s →
    ∃ pre post, r = pre ++ c :: post ∧ c ∉ pre ∧ s = pre.length
  | [], s, h => by simp [find] at h
  | a :: r, s, h => by
    rw [find_singleton_cons] at h
    by_cases hca : c = a
    · subst hca
      simp at h
      exact ⟨[], r, rfl, by simp, h.symm⟩
    · simp only [hca, if_false] at h
      cases hf : find r [c] with
      | none => simp [hf] at h
      | some q =>
        simp [hf] at h
        obtain ⟨pre, post, e, hn, hq⟩ := find_singleton_some c r q hf
        refine ⟨a :: pre, post, by simp [e], ?_, by simp [← h, hq]⟩
        simp [hn]
        exact hca

theorem find_singleton_none (c : Char) (r : Str) (h : find r [c] = none) : c ∉ r := by
  intro hm
  obtain ⟨pre, post, e⟩ := List.append_of_mem hm
  exact find_none_absent r [c] h ⟨pre, post, by simp [e]⟩

theorem substr_npos_drop (pre post : Str) (c : Char) :
    substr_npos (pre ++ c :: post) (pre.length + 1) = some post := by
  have hd : (pre ++ c :: post).drop (pre.length + 1) = post := by
    rw [show pre ++ c :: post = (pre ++ [c]) ++ post by simp]
    exact List.drop_left' (by simp)
  simp [substr_npos, hd]

/-- One round of the skipping loop moves past a field that holds no comma. -/
theorem skip_succ (n : Nat) (f rest : Str) (hf : ',' ∉ f) :
    CommaSplitParser.skip (n + 1) (f ++ ',' :: rest) = CommaSplitParser.skip n rest := by
  have h1 : find (f ++ ',' :: rest) [','] = some f.length := by
    simpa using find_append_first ',' [] rest f hf
  rw [CommaSplitParser.skip, h1]
  simp only [substr_npos_drop]

theorem skip_no_comma (n : Nat) (r : Str) (hr : ',' ∉ r) :
    CommaSplitParser.skip (n + 1) r = .stop (.returned .GZAT_ERROR) := by
  rw [CommaSplitParser.skip, find_not_mem ',' [] r hr]

theorem isolate_succ (n : Nat) (f rest : Str) (hf : ',' ∉ f) :
    CommaSplitParser.isolate (n + 1) (f ++ ',' :: rest) = CommaSplitParser.isolate n rest := by
  simp only [CommaSplitParser.isolate, skip_succ n f rest hf]

theorem isolate_zero_comma (f rest : Str) (hf : ',' ∉ f) :
    CommaSplitParser.isolate 0 (f ++ ',' :: rest) = .field f := by
  have h1 : find (f ++ ',' :: rest) [','] = some f.length := by
    simpa using find_append_first ',' [] rest f hf
  simp [CommaSplitParser.isolate, CommaSplitParser.skip, h1, substr, Isolated.ofSubstr]

theorem isolate_zero_cr (f rest : Str) (hf : '\r' ∉ f) (hc : ',' ∉ f ++ '\r' :: rest) :
    CommaSplitParser.isolate 0 (f ++ '\r' :: rest) = .field f := by
  have h1 : find (f ++ '\r' :: rest) [','] = none := find_not_mem ',' [] _ hc
  have h2 : find (f ++ '\r' :: rest) ['\r'] = some f.length := by
    simpa using find_append_first '\r' [] rest f hf
  simp [CommaSplitParser.isolate, CommaSplitParser.skip, h1, h2, substr, Isolated.ofSubstr]

theorem isolate_zero_plain (f : Str) (hf : '\r' ∉ f) (hc : ',' ∉ f) :
    CommaSplitParser.isolate 0 f = .field f := by
  have h1 : find f [','] = none := find_not_mem ',' [] _ hc
  have h2 : find f ['\r'] = none := find_not_mem '\r' [] _ hf
  simp [CommaSplitParser.isolate, CommaSplitParser.skip, h1, h2, substr_npos, Isolated.ofSubstr]

theorem takeWhile_ne_append (c : Char) (pre post : Str) (h : c ∉ pre) :
    (pre ++ c :: post).takeWhile (fun x => x != c) = pre := by
  rw [List.takeWhile_append_of_pos]
  · simp
  · intro a ha
    simp
    rintro rfl
    exact h ha

theorem takeWhile_ne_all (c : Char) (r : Str) (h : c ∉ r) :
    r.takeWhile (fun x => x != c) = r := by
  rw [List.takeWhile_eq_self_iff]
  intro a ha
  simp
  rintro rfl
  exact h ha

/-- A text with a comma splits at its first comma. -/
theorem split_first_comma (r : Str) (h : 0 < r.count ',') :
    ∃ f rest, r = f ++ ',' :: rest ∧ ',' ∉ f := by
  have hm : ',' ∈ r := List.count_pos_iff.mp h
  cases hf : find r [','] with
  | none => exact absurd hm (find_singleton_none ',' r hf)
  | some s =>
    obtain ⟨pre, post, e, hn, -⟩ := find_singleton_some ',' r s hf
    exact ⟨pre, post, e, hn⟩

/-! ## Claims about the comma-split parser -/

/-- C9. Comma-split selects the field at its position: for every position `p` and every response
`r` with at least `p` commas, `CommaSplitParser::Parse` reaches `CastOutput`, and the text it hands
over is the `p`-th (zero-based) element of `r` split on `,` when a further comma follows that
element, and otherwise that element cut at its first carriage return (whole if it has none). -/
theorem C9_comma_field (p : Nat) (r : Str) (h : p ≤ r.count ',') :
    CommaSplitParser.isolate p r =
      .field (if p < r.count ',' then (r.splitOn ',').getD p []
        else ((r.splitOn ',').getD p []).takeWhile (fun c => c != '\r')) := by
  induction p generalizing r with
  | zero =>
    by_cases hc : 0 < r.count ','
    · obtain ⟨f, rest, rfl, hf⟩ := split_first_comma r hc
      have hs : (f ++ ',' :: rest).splitOn ',' = f :: rest.splitOn ',' :=
        List.splitOnP_first _ f (by intro x hx; simp; rintro rfl; exact hf hx) ',' (by simp) rest
      rw [isolate_zero_comma f rest hf, if_pos hc, hs]
      rfl
    · have hz : r.count ',' = 0 := by omega
      have hn : ',' ∉ r := List.count_eq_zero.mp hz
      have hs : r.splitOn ',' = [r] := List.splitOnP_eq_single _ r (by intro x hx; simp; rintro rfl; exact hn hx)
      rw [if_neg hc, hs]
      simp only [List.getD_cons_zero]
      by_cases hcr : '\r' ∈ r
      · obtain ⟨pre, post, e, hpre⟩ : ∃ pre post, r = pre ++ '\r' :: post ∧ '\r' ∉ pre := by
          cases hf : find r ['\r'] with
          | none => exact absurd hcr (find_singleton_none '\r' r hf)
          | some s =>
            obtain ⟨pre, post, e, hn, -⟩ := find_singleton_some '\r' r s hf
            exact ⟨pre, post, e, hn⟩
        subst e
        rw [isolate_zero_cr pre post hpre hn, takeWhile_ne_append '\r' pre post hpre]
      · rw [isolate_zero_plain r hcr hn, takeWhile_ne_all '\r' r hcr]
  | succ n ih =>
    obtain ⟨f, rest, rfl, hf⟩ := split_first_comma r (by omega)
    have hs : (f ++ ',' :: rest).splitOn ',' = f :: rest.splitOn ',' :=
      List.splitOnP_first _ f (by intro x hx; simp; rintro rfl; exact hf hx) ',' (by simp) rest
    have hcount : (f ++ ',' :: rest).count ',' = rest.count ',' + 1 := by
      simp [List.count_append, List.count_eq_zero.mpr hf]
    rw [isolate_succ n f rest hf, hs, hcount, ih rest (by omega)]
    simp

/-- C9, at the response of the test `Parse_MS_Get_String` after the command echo: position 1 is
followed by a comma and keeps its quotes, position 2 is the last element and is cut at the first
carriage return. -/
theorem C9_comma_field_witness :
    2 ≤ " 10,\"1.2.3.4\",abc\r\rOK".toList.count ',' ∧
    CommaSplitParser.isolate 2 " 10,\"1.2.3.4\",abc\r\rOK".toList =
      .field (if 2 < " 10,\"1.2.3.4\",abc\r\rOK".toList.count ','
        then (" 10,\"1.2.3.4\",abc\r\rOK".toList.splitOn ',').getD 2 []
        else ((" 10,\"1.2.3.4\",abc\r\rOK".toList.splitOn ',').getD 2 []).takeWhile
          (fun c => c != '\r')) ∧
    CommaSplitParser.isolate 2 " 10,\"1.2.3.4\",abc\r\rOK".toList = .field "abc".toList :=
  ⟨by decide, C9_comma_field 2 " 10,\"1.2.3.4\",abc\r\rOK".toList (by decide), by decide⟩

theorem skip_too_few (p : Nat) : ∀ r : Str, r.count ',' < p →
    CommaSplitParser.skip p r = .stop (.returned .GZAT_ERROR) := by
  induction p with
  | zero => intro r h; omega
  | succ n ih =>
    intro r h
    by_cases hc : 0 < r.count ','
    · obtain ⟨f, rest, rfl, hf⟩ := split_first_comma r hc
      have hcount : (f ++ ',' :: rest).count ',' = rest.count ',' + 1 := by
        simp [List.count_append, List.count_eq_zero.mpr hf]
      rw [skip_succ n f rest hf]
      exact ih rest (by omega)
    · have hz : r.count ',' = 0 := by omega
      exact skip_no_comma n r (List.count_eq_zero.mp hz)

/-- C10. A missing field fails without writing: for every position `p ≥ 1` and every response
with fewer than `p` commas, `Parse` on a comma-split parser at position `p` returns `GZAT_ERROR`
whatever slots and children are attached, and leaves the memory as it was: no output slot is
written and no child is called. -/
theorem C10_missing_field {F : Type} (stod : Str → Option F) (p : Nat) (r : Str)
    (int_out double_out string_out : Option Nat) (child_parsers : List Parser) (m : Memory F)
    (_hp : 1 ≤ p) (h : r.count ',' < p) :
    Parser.Parse stod (.mk (.CommaSplitParser p) int_out double_out string_out child_parsers) r m
      = (.returned .GZAT_ERROR, m) := by
  rw [Parser.Parse]
  simp [Kind.isolate, CommaSplitParser.isolate, skip_too_few p r h]

/-- C10, at position 5 on the two-field response `10,100`, with the three slots bound and a
child attached. -/
theorem C10_missing_field_witness :
    1 ≤ 5 ∧ "10,100".toList.count ',' < 5 ∧
    Parser.Parse (fun _ => (none : Option Unit))
      (.mk (.CommaSplitParser 5) (some 0) (some 1) (some 2) [Parser.new (.CommaSplitParser 0)])
      "10,100".toList exampleMemory = (.returned .GZAT_ERROR, exampleMemory) :=
  ⟨by decide, by decide,
    C10_missing_field (fun _ => (none : Option Unit)) 5 "10,100".toList (some 0) (some 1) (some 2)
      [Parser.new (.CommaSplitParser 0)] exampleMemory (by decide) (by decide)⟩

/-! ## Facts about decimal numerals and `stoi` -/

theorem digitChar_spec (k : Nat) (hk : k < 10) :
    (Nat.digitChar k).isDigit = true ∧ (Nat.digitChar k).toNat - '0'.toNat = k := by
  interval_cases k <;> exact ⟨by decide, by decide⟩

theorem digitsValue_append (l : Str) (d : Char) :
    digitsValue (l ++ [d]) = 10 * digitsValue l + (d.toNat - '0'.toNat) := by
  simp [digitsValue, List.foldl_append]

theorem toDigitsCore_append : ∀ (fuel n : Nat) (ds : Str),
    Nat.toDigitsCore 10 fuel n ds = Nat.toDigitsCore 10 fuel n [] ++ ds
  | 0, _, ds => by simp [Nat.toDigitsCore]
  | fuel + 1, n, ds => by
    simp only [Nat.toDigitsCore]
    by_cases h : n / 10 = 0
    · simp [h]
    · simp only [h, if_false]
      rw [toDigitsCore_append fuel (n / 10) (Nat.digitChar (n % 10) :: ds),
        toDigitsCore_append fuel (n / 10) [Nat.digitChar (n % 10)]]
      simp

theorem toDigitsCore_spec : ∀ (fuel n : Nat), n < fuel →
    (∀ c ∈ Nat.toDigitsCore 10 fuel n [], c.isDigit = true) ∧
    Nat.toDigitsCore 10 fuel n [] ≠ [] ∧
    digitsValue (Nat.toDigitsCore 10 fuel n []) = n
  | 0, _, h => by omega
  | fuel + 1, n, hlt => by
    have hd := digitChar_spec (n % 10) (Nat.mod_lt _ (by decide))
    simp only [Nat.toDigitsCore]
    by_cases h : n / 10 = 0
    · simp only [h, if_true]
      refine ⟨by simpa using hd.1, by simp, ?_⟩
      have : digitsValue [Nat.digitChar (n % 10)] = (Nat.digitChar (n % 10)).toNat - '0'.toNat := by
        simp [digitsValue]
      rw [this, hd.2]
      omega
    · simp only [h, if_false]
      rw [toDigitsCore_append]
      obtain ⟨i1, i2, i3⟩ := toDigitsCore_spec fuel (n / 10) (by omega)
      refine ⟨?_, by simp, ?_⟩
      · intro c hc
        rcases List.mem_append.mp hc with h1 | h1
        · exact i1 c h1
        · simp at h1
          subst h1
          exact hd.1
      · rw [digitsValue_append, i3, hd.2]
        omega

theorem toDigits_spec (n : Nat) :
    (∀ c ∈ Nat.toDigits 10 n, c.isDigit = true) ∧ Nat.toDigits 10 n ≠ [] ∧
    digitsValue (Nat.toDigits 10 n) = n :=
  toDigitsCore_spec (n + 1) n (by omega)

theorem isDigit_plain (c : Char) (h : c.isDigit = true) :
    isspace c = false ∧ c ≠ '-' ∧ c ≠ '+' ∧ c ≠ ',' ∧ c ≠ '\r' := by
  refine ⟨?_, ?_, ?_, ?_, ?_⟩
  · cases hs : isspace c with
    | false => rfl
    | true =>
      simp [isspace] at hs
      rcases hs with ((((rfl | rfl) | rfl) | rfl) | rfl) | rfl <;> exact absurd h (by decide)
  all_goals (rintro rfl; exact absurd h (by decide))

/-- A run of digits, read by `stoi` behind an optional minus sign, gives back its value. -/
theorem stoi_digits (ds : Str) (hds : ∀ c ∈ ds, c.isDigit = true) (hne : ds ≠ []) :
    stoi ds = (if (digitsValue ds : Int) ≤ 2147483647 then some (digitsValue ds : Int) else none) ∧
    stoi ('-' :: ds) =
      (if -2147483648 ≤ -(digitsValue ds : Int) then some (-(digitsValue ds : Int)) else none) := by
  cases ds with
  | nil => exact absurd rfl hne
  | cons d t =>
    obtain ⟨h1, h2, h3, -, -⟩ := isDigit_plain d (hds d (by simp))
    have htw : (d :: t).takeWhile Char.isDigit = d :: t :=
      List.takeWhile_eq_self_iff.mpr hds
    have hnn : (0 : Int) ≤ (digitsValue (d :: t) : Int) := Int.ofNat_nonneg _
    constructor
    · have hdw : (d :: t).dropWhile isspace = d :: t := by simp [List.dropWhile, h1]
      simp only [stoi, hdw, List.head?_cons, Option.some.injEq, h2, h3, or_self, if_false, htw]
      simp
      split_ifs <;> first | rfl | (exfalso; omega)
    · have hdw : ('-' :: d :: t).dropWhile isspace = '-' :: d :: t := by
        simp [List.dropWhile, isspace]
      simp only [stoi, hdw, List.head?_cons, true_or, if_true, List.tail_cons, htw]
      simp
      split_ifs <;> first | rfl | (exfalso; omega)

theorem decimal_plain (a : Int) : ',' ∉ decimal a ∧ '\r' ∉ decimal a := by
  have key : ∀ n : Nat, ',' ∉ Nat.toDigits 10 n ∧ '\r' ∉ Nat.toDigits 10 n := by
    intro n
    constructor <;> intro hm
    · exact (isDigit_plain _ ((toDigits_spec n).1 _ hm)).2.2.2.1 rfl
    · exact (isDigit_plain _ ((toDigits_spec n).1 _ hm)).2.2.2.2 rfl
  cases a with
  | ofNat n => exact key n
  | negSucc n =>
    simp only [decimal, List.mem_cons, not_or]
    exact ⟨⟨by decide, (key _).1⟩, ⟨by decide, (key _).2⟩⟩

/-- The numeral of a value in the range of `int` is read back by `stoi`, also behind a space. -/
theorem stoi_decimal (a : Int) (h1 : -2147483648 ≤ a) (h2 : a ≤ 2147483647) :
    stoi (decimal a) = some a ∧ stoi (' ' :: decimal a) = some a := by
  have hsp : ∀ s : Str, stoi (' ' :: s) = stoi s := by
    intro s
    simp [stoi, List.dropWhile, isspace]
  rw [hsp]
  simp only [and_self]
  cases a with
  | ofNat n =>
    obtain ⟨d1, d2, d3⟩ := toDigits_spec n
    rw [decimal, (stoi_digits _ d1 d2).1, d3]
    simp at h2 ⊢
    omega
  | negSucc n =>
    obtain ⟨d1, d2, d3⟩ := toDigits_spec (n + 1)
    rw [decimal, (stoi_digits _ d1 d2).2, d3]
    have : Int.negSucc n = -((n + 1 : Nat) : Int) := rfl
    rw [this] at h1 ⊢
    simp at h1 ⊢
    omega

/-! ## Facts about `Parse` on small trees -/

theorem find_at_start (n t : Str) : find (n ++ t) n = some 0 := by
  cases n with
  | nil => exact find_nil_needle _
  | cons c s =>
    have hb : (c :: s).isPrefixOf (c :: (s ++ t)) = true :=
      isPrefixOf_true.mpr ⟨t, rfl⟩
    show find (c :: (s ++ t)) (c :: s) = some 0
    rw [find, hb]
    rfl

/-- The command echo at the start of the response: what follows the identifier and one more
character goes to `CastOutput`. -/
theorem command_isolate_echo (cmd_req : AtCommand) (sep : Char) (t : Str) :
    CommandParser.isolate cmd_req (cmd_req.cmd_id ++ sep :: t) = .field t := by
  simp only [CommandParser.isolate, find_at_start, Nat.zero_add, substr_npos_drop]
  rfl

/-- A node with an integer slot whose field reads as `v` writes `v` and succeeds. -/
theorem parse_int_leaf {F : Type} (stod : Str → Option F) (kind : Kind) (out : Nat)
    (d s : Option Nat) (cs : List Parser) (r t : Str) (v : Int) (m : Memory F)
    (hi : kind.isolate r = .field t) (hv : stoi t = some v) :
    Parser.Parse stod (.mk kind (some out) d s cs) r m =
      (.returned .GZAT_SUCCESS, { m with int64 := Function.update m.int64 out v }) := by
  rw [Parser.Parse, hi]
  simp only [CastOutput, hv]

/-- A node with only a string slot whose field is not empty after the leading quote is removed
writes the field without its outer quotes and succeeds. -/
theorem parse_string_leaf {F : Type} (stod : Str → Option F) (kind : Kind) (out : Nat)
    (cs : List Parser) (r t : Str) (c : Char) (m : Memory F)
    (hi : kind.isolate r = .field t)
    (hc : (if t.head? = some '"' then t.tail else t).getLast? = some c) :
    Parser.Parse stod (.mk kind none none (some out) cs) r m =
      (.returned .GZAT_SUCCESS,
        { m with string := (Function.update m.string out
            (if c = '"' then (if t.head? = some '"' then t.tail else t).dropLast
              else (if t.head? = some '"' then t.tail else t))) }) := by
  rw [Parser.Parse, hi]
  simp only [CastOutput, hc]

/-! ## Claims about field extraction through a tree -/

/-- C7. Integer field extraction through a tree: for every command with identifier
`cmd.cmd_id`, all integers `a` and `b` in the signed 32-bit range and two distinct integer slots
`s1` and `s2`, the command-echo parser for `cmd` with two comma-split children at positions 0 and
1, bound to `s1` and `s2`, on the response `cmd_id + ": " + decimal a + "," + decimal b` returns
`GZAT_SUCCESS` and leaves `a` in `s1` and `b` in `s2`. -/
theorem C7_integer_fields {F : Type} (stod : Str → Option F) (cmd : AtCommand) (a b : Int)
    (s1 s2 : Nat) (m : Memory F)
    (ha1 : -2147483648 ≤ a) (ha2 : a ≤ 2147483647)
    (hb1 : -2147483648 ≤ b) (hb2 : b ≤ 2147483647) (hs : s1 ≠ s2) :
    ∃ m1, Parser.Parse stod
      (((Parser.new (.CommandParser cmd)).AddChildParser
          ((Parser.new (.CommaSplitParser 0)).AddIntegerOutput s1)).AddChildParser
          ((Parser.new (.CommaSplitParser 1)).AddIntegerOutput s2))
      (cmd.cmd_id ++ [':', ' '] ++ decimal a ++ [','] ++ decimal b) m
        = (.returned .GZAT_SUCCESS, m1) ∧
      m1.int64 s1 = a ∧ m1.int64 s2 = b := by
  have hresp : cmd.cmd_id ++ [':', ' '] ++ decimal a ++ [','] ++ decimal b =
      cmd.cmd_id ++ ':' :: ((' ' :: decimal a) ++ ',' :: decimal b) := by simp
  have hca : ',' ∉ ' ' :: decimal a := by
    simp only [List.mem_cons, not_or]
    exact ⟨by decide, (decimal_plain a).1⟩
  have i0 : Kind.isolate (.CommaSplitParser 0) ((' ' :: decimal a) ++ ',' :: decimal b) =
      .field (' ' :: decimal a) := isolate_zero_comma _ _ hca
  have i1 : Kind.isolate (.CommaSplitParser 1) ((' ' :: decimal a) ++ ',' :: decimal b) =
      .field (decimal b) := by
    show CommaSplitParser.isolate 1 _ = _
    rw [isolate_succ 0 _ _ hca]
    exact isolate_zero_plain _ (decimal_plain b).2 (decimal_plain b).1
  have hroot : Kind.isolate (.CommandParser cmd)
      (cmd.cmd_id ++ ':' :: ((' ' :: decimal a) ++ ',' :: decimal b)) =
      .field ((' ' :: decimal a) ++ ',' :: decimal b) := command_isolate_echo cmd ':' _
  have htree : ((Parser.new (.CommandParser cmd)).AddChildParser
      ((Parser.new (.CommaSplitParser 0)).AddIntegerOutput s1)).AddChildParser
      ((Parser.new (.CommaSplitParser 1)).AddIntegerOutput s2) =
      .mk (.CommandParser cmd) none none none
        [.mk (.CommaSplitParser 0) (some s1) none none [],
         .mk (.CommaSplitParser 1) (some s2) none none []] := rfl
  rw [hresp, htree, Parser.Parse, hroot]
  simp only [CastOutput, Parser.ParseChildren]
  rw [parse_int_leaf stod _ s1 none none [] _ _ a _ i0 (stoi_decimal a ha1 ha2).2]
  simp only [Parser.ParseChildren]
  rw [parse_int_leaf stod _ s2 none none [] _ _ b _ i1 (stoi_decimal b hb1 hb2).1]
  exact ⟨_, rfl, by simp [Function.update_noteq hs], by simp⟩

/-- C7, at the test `Parse_MS_Get_Int`: the command of `"AT+CSQ?"`, the values 10 and 100, the
response `+CSQ: 10,100`. -/
theorem C7_integer_fields_witness :
    AtCommand.construct "AT+CSQ?".toList =
      some { ms := 1, me := 2, cmd_id := "+CSQ".toList, cmd_payload := [] } ∧
    "+CSQ".toList ++ [':', ' '] ++ decimal 10 ++ [','] ++ decimal 100 = "+CSQ: 10,100".toList ∧
    ((-2147483648 : Int) ≤ 10 ∧ (10 : Int) ≤ 2147483647) ∧
    ((-2147483648 : Int) ≤ 100 ∧ (100 : Int) ≤ 2147483647) ∧ (0 : Nat) ≠ 1 ∧
    ∃ m1, Parser.Parse (fun _ => (none : Option Unit))
      (((Parser.new (.CommandParser
            { ms := 1, me := 2, cmd_id := "+CSQ".toList, cmd_payload := [] })).AddChildParser
          ((Parser.new (.CommaSplitParser 0)).AddIntegerOutput 0)).AddChildParser
          ((Parser.new (.CommaSplitParser 1)).AddIntegerOutput 1))
      ("+CSQ".toList ++ [':', ' '] ++ decimal 10 ++ [','] ++ decimal 100) exampleMemory
        = (.returned .GZAT_SUCCESS, m1) ∧
      m1.int64 0 = 10 ∧ m1.int64 1 = 100 :=
  ⟨by decide, by decide, by decide, by decide, by decide,
    C7_integer_fields (fun _ => (none : Option Unit))
      { ms := 1, me := 2, cmd_id := "+CSQ".toList, cmd_payload := [] } 10 100 0 1 exampleMemory
      (by decide) (by decide) (by decide) (by decide) (by decide)⟩

/-- C8. Quoted and CR-terminated string fields through a tree: for every command with identifier
`cmd.cmd_id`, every integer `n` in the signed 32-bit range, every `s` without a comma, every
non-empty `t` without a comma or carriage return that neither starts nor ends with a double quote,
every trailer `u` without a comma, an integer slot `o1` and two distinct string slots `o2` and
`o3`, the command-echo parser for `cmd` with comma-split children at positions 0 (bound to `o1`),
1 (bound to `o2`) and 2 (bound to `o3`) on the response
`cmd_id + ": " + decimal n + "," + '"' + s + '"' + "," + t + "\r" + u` returns `GZAT_SUCCESS` and
leaves `n` in `o1`, `s` in `o2` and `t` in `o3`. -/
theorem C8_string_fields {F : Type} (stod : Str → Option F) (cmd : AtCommand) (n : Int)
    (s t u : Str) (o1 o2 o3 : Nat) (m : Memory F)
    (hn1 : -2147483648 ≤ n) (hn2 : n ≤ 2147483647) (hs : ',' ∉ s)
    (ht0 : t ≠ []) (ht1 : ',' ∉ t) (ht2 : '\r' ∉ t)
    (ht3 : t.head? ≠ some '"') (ht4 : t.getLast? ≠ some '"') (hu : ',' ∉ u) (ho : o2 ≠ o3) :
    ∃ m1, Parser.Parse stod
      ((((Parser.new (.CommandParser cmd)).AddChildParser
          ((Parser.new (.CommaSplitParser 0)).AddIntegerOutput o1)).AddChildParser
          ((Parser.new (.CommaSplitParser 1)).AddStringOutput o2)).AddChildParser
          ((Parser.new (.CommaSplitParser 2)).AddStringOutput o3))
      (cmd.cmd_id ++ [':', ' '] ++ decimal n ++ [','] ++ ['"'] ++ s ++ ['"'] ++ [','] ++ t ++
        ['\r'] ++ u) m
        = (.returned .GZAT_SUCCESS, m1) ∧
      m1.int64 o1 = n ∧ m1.string o2 = s ∧ m1.string o3 = t := by
  have hresp : cmd.cmd_id ++ [':', ' '] ++ decimal n ++ [','] ++ ['"'] ++ s ++ ['"'] ++ [','] ++
      t ++ ['\r'] ++ u =
      cmd.cmd_id ++ ':' ::
        ((' ' :: decimal n) ++ ',' :: (('"' :: (s ++ ['"'])) ++ ',' :: (t ++ '\r' :: u))) := by
    simp
  have htree : (((Parser.new (.CommandParser cmd)).AddChildParser
      ((Parser.new (.CommaSplitParser 0)).AddIntegerOutput o1)).AddChildParser
      ((Parser.new (.CommaSplitParser 1)).AddStringOutput o2)).AddChildParser
      ((Parser.new (.CommaSplitParser 2)).AddStringOutput o3) =
      .mk (.CommandParser cmd) none none none
        [.mk (.CommaSplitParser 0) (some o1) none none [],
         .mk (.CommaSplitParser 1) none none (some o2) [],
         .mk (.CommaSplitParser 2) none none (some o3) []] := rfl
  have hc0 : ',' ∉ ' ' :: decimal n := by
    simp only [List.mem_cons, not_or]
    exact ⟨by decide, (decimal_plain n).1⟩
  have hc1 : ',' ∉ '"' :: (s ++ ['"']) := by
    simp only [List.mem_cons, List.mem_append, List.mem_singleton, not_or]
    exact ⟨by decide, hs, by decide⟩
  have hc2 : ',' ∉ t ++ '\r' :: u := by
    simp only [List.mem_cons, List.mem_append, not_or]
    exact ⟨ht1, by decide, hu⟩
  have i0 : Kind.isolate (.CommaSplitParser 0)
      ((' ' :: decimal n) ++ ',' :: (('"' :: (s ++ ['"'])) ++ ',' :: (t ++ '\r' :: u))) =
      .field (' ' :: decimal n) := isolate_zero_comma _ _ hc0
  have i1 : Kind.isolate (.CommaSplitParser 1)
      ((' ' :: decimal n) ++ ',' :: (('"' :: (s ++ ['"'])) ++ ',' :: (t ++ '\r' :: u))) =
      .field ('"' :: (s ++ ['"'])) := by
    show CommaSplitParser.isolate 1 _ = _
    rw [isolate_succ 0 _ _ hc0]
    exact isolate_zero_comma _ _ hc1
  have i2 : Kind.isolate (.CommaSplitParser 2)
      ((' ' :: decimal n) ++ ',' :: (('"' :: (s ++ ['"'])) ++ ',' :: (t ++ '\r' :: u))) =
      .field t := by
    show CommaSplitParser.isolate 2 _ = _
    rw [isolate_succ 1 _ _ hc0, isolate_succ 0 _ _ hc1]
    exact isolate_zero_cr t u ht2 hc2
  have hroot : Kind.isolate (.CommandParser cmd)
      (cmd.cmd_id ++ ':' ::
        ((' ' :: decimal n) ++ ',' :: (('"' :: (s ++ ['"'])) ++ ',' :: (t ++ '\r' :: u)))) =
      .field ((' ' :: decimal n) ++ ',' :: (('"' :: (s ++ ['"'])) ++ ',' :: (t ++ '\r' :: u))) :=
    command_isolate_echo cmd ':' _
  have q1 : (if ('"' :: (s ++ ['"'])).head? = some '"' then ('"' :: (s ++ ['"'])).tail
      else '"' :: (s ++ ['"'])).getLast? = some '"' := by simp
  obtain ⟨c, hc⟩ : ∃ c, t.getLast? = some c := by
    cases hl : t.getLast? with
    | none => exact absurd (List.getLast?_eq_none_iff.mp hl) ht0
    | some c => exact ⟨c, rfl⟩
  have hcq : c ≠ '"' := fun e => ht4 (by rw [hc, e])
  have q2 : (if t.head? = some '"' then t.tail else t).getLast? = some c := by
    rw [if_neg ht3, hc]
  rw [hresp, htree, Parser.Parse, hroot]
  simp only [CastOutput, Parser.ParseChildren]
  rw [parse_int_leaf stod _ o1 none none [] _ _ n _ i0 (stoi_decimal n hn1 hn2).2]
  simp only [Parser.ParseChildren]
  rw [parse_string_leaf stod _ o2 [] _ _ '"' _ i1 q1]
  simp only [Parser.ParseChildren]
  rw [parse_string_leaf stod _ o3 [] _ _ c _ i2 q2]
  refine ⟨_, rfl, by simp, ?_, ?_⟩
  · simp [Function.update_noteq ho]
  · simp [hcq, ht3]

/-- C8, at the test `Parse_MS_Get_String`: the response `+PDP: 10,"1.2.3.4",abc\r\rOK`. -/
theorem C8_string_fields_witness :
    "+PDP".toList ++ [':', ' '] ++ decimal 10 ++ [','] ++ ['"'] ++ "1.2.3.4".toList ++ ['"'] ++
      [','] ++ "abc".toList ++ ['\r'] ++ "\rOK".toList = "+PDP: 10,\"1.2.3.4\",abc\r\rOK".toList ∧
    ((-2147483648 : Int) ≤ 10 ∧ (10 : Int) ≤ 2147483647) ∧ ',' ∉ "1.2.3.4".toList ∧
    ("abc".toList ≠ [] ∧ ',' ∉ "abc".toList ∧ '\r' ∉ "abc".toList ∧
      "abc".toList.head? ≠ some '"' ∧ "abc".toList.getLast? ≠ some '"') ∧
    ',' ∉ "\rOK".toList ∧ (1 : Nat) ≠ 2 ∧
    ∃ m1, Parser.Parse (fun _ => (none : Option Unit))
      ((((Parser.new (.CommandParser
            { ms := 1, me := 2, cmd_id := "+PDP".toList, cmd_payload := [] })).AddChildParser
          ((Parser.new (.CommaSplitParser 0)).AddIntegerOutput 0)).AddChildParser
          ((Parser.new (.CommaSplitParser 1)).AddStringOutput 1)).AddChildParser
          ((Parser.new (.CommaSplitParser 2)).AddStringOutput 2))
      ("+PDP".toList ++ [':', ' '] ++ decimal 10 ++ [','] ++ ['"'] ++ "1.2.3.4".toList ++ ['"'] ++
        [','] ++ "abc".toList ++ ['\r'] ++ "\rOK".toList) exampleMemory
        = (.returned .GZAT_SUCCESS, m1) ∧
      m1.int64 0 = 10 ∧ m1.string 1 = "1.2.3.4".toList ∧ m1.string 2 = "abc".toList :=
  ⟨by decide, by decide, by decide, by decide, by decide, by decide,
    C8_string_fields (fun _ => (none : Option Unit))
      { ms := 1, me := 2, cmd_id := "+PDP".toList, cmd_payload := [] } 10 "1.2.3.4".toList
      "abc".toList "\rOK".toList 0 1 2 exampleMemory
      (by decide) (by decide) (by decide) (by decide) (by decide) (by decide) (by decide)
      (by decide) (by decide) (by decide)⟩


/-! ## Claims about the command-echo parser -/

/-- The position `find` returns is the offset of the first occurrence. -/
theorem find_first_occurrence (r n : Str) (s : Nat) (hpre : n <+: r.drop s)
    (hmin : ∀ q, q < s → ¬ n <+: r.drop q) : find r n = some s := by
  cases hf : find r n with
  | none =>
    obtain ⟨t, ht⟩ := hpre
    exact absurd ⟨r.take s, t, by rw [List.append_assoc, ht, List.take_append_drop]⟩
      (find_none_absent r n hf)
  | some p =>
    rcases Nat.lt_trichotomy p s with h | h | h
    · exact absurd (find_some_starts r n p hf) (hmin p h)
    · rw [h]
    · exact absurd hpre (find_some_first r n p hf s h)

/-- C11. Command-echo parsing: for every command-echo parser with identifier `cmd_id`, whatever
slots and children are attached, and every response `r`: if `cmd_id` does not occur in `r`, then
`Parse` returns `GZAT_ERROR` and leaves the memory as it was; and if the first occurrence of
`cmd_id` is at offset `s` with `s + |cmd_id| + 1 ≤ |r|`, then `Parse` is `CastOutput` on `r`
without its first `s + |cmd_id| + 1` characters. -/
theorem C11_command_echo {F : Type} (stod : Str → Option F) (cmd : AtCommand)
    (int_out double_out string_out : Option Nat) (child_parsers : List Parser) (r : Str)
    (m : Memory F) :
    (¬ cmd.cmd_id <:+: r →
      Parser.Parse stod (.mk (.CommandParser cmd) int_out double_out string_out child_parsers) r m
        = (.returned .GZAT_ERROR, m)) ∧
    (∀ s, cmd.cmd_id <+: r.drop s → (∀ q, q < s → ¬ cmd.cmd_id <+: r.drop q) →
      s + cmd.cmd_id.length + 1 ≤ r.length →
      Parser.Parse stod (.mk (.CommandParser cmd) int_out double_out string_out child_parsers) r m
        = CastOutput stod int_out double_out string_out
            (Parser.ParseChildren stod child_parsers) (r.drop (s + cmd.cmd_id.length + 1)) m) := by
  constructor
  · intro hno
    rw [Parser.Parse]
    simp [Kind.isolate, CommandParser.isolate, find_none_of_absent r _ hno]
  · intro s hpre hmin hlen
    rw [Parser.Parse]
    simp [Kind.isolate, CommandParser.isolate, find_first_occurrence r _ s hpre hmin,
      substr_npos, hlen, Isolated.ofSubstr]

/-- C11, at the response `AT+CSQ: 7` for the identifier `+CSQ` with an integer slot bound: the
first occurrence is at offset 2, the seven characters up to and including the colon are skipped,
and the rest ` 7` is cast. -/
theorem C11_command_echo_witness :
    "+CSQ".toList <+: "AT+CSQ: 7".toList.drop 2 ∧
    (∀ q, q < 2 → ¬ "+CSQ".toList <+: "AT+CSQ: 7".toList.drop q) ∧
    2 + "+CSQ".toList.length + 1 ≤ "AT+CSQ: 7".toList.length ∧
    Parser.Parse (fun _ => (none : Option Unit))
      (.mk (.CommandParser { ms := 1, me := 2, cmd_id := "+CSQ".toList, cmd_payload := [] })
        (some 0) none none []) "AT+CSQ: 7".toList exampleMemory
      = CastOutput (fun _ => (none : Option Unit)) (some 0) none none
          (Parser.ParseChildren (fun _ => (none : Option Unit)) [])
          ("AT+CSQ: 7".toList.drop (2 + "+CSQ".toList.length + 1)) exampleMemory ∧
    (Parser.Parse (fun _ => (none : Option Unit))
      (.mk (.CommandParser { ms := 1, me := 2, cmd_id := "+CSQ".toList, cmd_payload := [] })
        (some 0) none none []) "AT+CSQ: 7".toList exampleMemory).1 = .returned .GZAT_SUCCESS ∧
    (Parser.Parse (fun _ => (none : Option Unit))
      (.mk (.CommandParser { ms := 1, me := 2, cmd_id := "+CSQ".toList, cmd_payload := [] })
        (some 0) none none []) "AT+CSQ: 7".toList exampleMemory).2.int64 0 = 7 :=
  ⟨by decide, by decide, by decide,
    (C11_command_echo (fun _ => (none : Option Unit))
      { ms := 1, me := 2, cmd_id := "+CSQ".toList, cmd_payload := [] } (some 0) none none []
      "AT+CSQ: 7".toList exampleMemory).2 2 (by decide) (by decide) (by decide),
    by decide, by decide⟩

/-- C12 fails on the code. When the first occurrence of `cmd_id` ends exactly at the end of the
response, `response.substr(s_pos + cmd_id.size() + 1)` starts one past the end and throws
`std::out_of_range`; the call is made before `CastOutput` is entered, outside its `try` block, so
the exception leaves `Parse`, whatever slots and children are attached. -/
theorem C12_identifier_at_end {F : Type} (stod : Str → Option F) (cmd : AtCommand)
    (int_out double_out string_out : Option Nat) (child_parsers : List Parser) (r : Str)
    (m : Memory F) (s : Nat) (hpre : cmd.cmd_id <+: r.drop s)
    (hmin : ∀ q, q < s → ¬ cmd.cmd_id <+: r.drop q) (hend : s + cmd.cmd_id.length = r.length) :
    Parser.Parse stod (.mk (.CommandParser cmd) int_out double_out string_out child_parsers) r m
      = (.thrown, m) := by
  rw [Parser.Parse]
  have hgt : ¬ s + cmd.cmd_id.length + 1 ≤ r.length := by omega
  simp [Kind.isolate, CommandParser.isolate, find_first_occurrence r _ s hpre hmin,
    substr_npos, hgt, Isolated.ofSubstr]

/-- C12, at the response `+CSQ` for the identifier `+CSQ` with an integer slot bound: `Parse`
ends with a thrown exception, while `CastOutput` on the empty text returns `GZAT_ERROR`. -/
theorem C12_identifier_at_end_witness :
    "+CSQ".toList <+: "+CSQ".toList.drop 0 ∧
    (∀ q, q < 0 → ¬ "+CSQ".toList <+: "+CSQ".toList.drop q) ∧
    0 + "+CSQ".toList.length = "+CSQ".toList.length ∧
    Parser.Parse (fun _ => (none : Option Unit))
      (.mk (.CommandParser { ms := 1, me := 2, cmd_id := "+CSQ".toList, cmd_payload := [] })
        (some 0) none none []) "+CSQ".toList exampleMemory = (.thrown, exampleMemory) ∧
    (CastOutput (fun _ => (none : Option Unit)) (some 0) none none
      (Parser.ParseChildren (fun _ => (none : Option Unit)) []) [] exampleMemory).1
      = .returned .GZAT_ERROR :=
  ⟨by decide, by intro q hq; omega, by decide,
    C12_identifier_at_end (fun _ => (none : Option Unit))
      { ms := 1, me := 2, cmd_id := "+CSQ".toList, cmd_payload := [] } (some 0) none none []
      "+CSQ".toList exampleMemory 0 (by decide) (by intro q hq; omega) (by decide),
    by decide⟩

/-! ## Claims about the casting step -/

theorem parseChildren_success {F : Type} (stod : Str → Option F) (t : Str) :
    ∀ (cs : List Parser) (m m1 : Memory F), succeedInOrder stod t cs m m1 →
      Parser.ParseChildren stod cs t m = (.returned .GZAT_SUCCESS, m1)
  | [], m, m1, h => by
    simp only [succeedInOrder] at h
    rw [Parser.ParseChildren, h]
  | c :: cs, m, m1, h => by
    obtain ⟨m2, h1, h2⟩ := h
    rw [Parser.ParseChildren, h1]
    exact parseChildren_success stod t cs m2 m1 h2

theorem parseChildren_first_failure {F : Type} (stod : Str → Option F) (t : Str)
    (ck : Parser) (post : List Parser) (o : Outcome) (m1 : Memory F)
    (ho : o ≠ .returned .GZAT_SUCCESS) :
    ∀ (pre : List Parser) (m mk : Memory F), succeedInOrder stod t pre m mk →
      Parser.Parse stod ck t { mk with calls := mk.calls ++ [(ck, t)] } = (o, m1) →
      Parser.ParseChildren stod (pre ++ ck :: post) t m = (o, m1)
  | [], m, mk, h, hk => by
    simp only [succeedInOrder] at h
    subst h
    rw [List.nil_append, Parser.ParseChildren, hk]
    cases o with
    | returned e =>
      cases e with
      | GZAT_SUCCESS => exact absurd rfl ho
      | GZAT_ERROR => rfl
      | GZAT_NOT_SUPPORTED => rfl
    | thrown => rfl
    | undefined => rfl
  | c :: pre, m, mk, h, hk => by
    obtain ⟨m2, h1, h2⟩ := h
    rw [List.cons_append, Parser.ParseChildren, h1]
    exact parseChildren_first_failure stod t ck post o m1 ho pre m2 mk h2 hk

/-- C13. Child aggregation short-circuits on the first failure: for every node with no bound
output slot that has isolated the field text `t`, (1) if its children, called in order on `t`,
all return `GZAT_SUCCESS`, the node returns `GZAT_SUCCESS` with the memory they leave; and (2) if
the children before `ck` all return `GZAT_SUCCESS` and `ck`, called on the same `t`, returns
`e` other than `GZAT_SUCCESS`, the node returns `e` unchanged, with the memory exactly as `ck`
left it: no child after `ck` is called and no slot is written after `ck` returns. -/
theorem C13_short_circuit {F : Type} (stod : Str → Option F) (kind : Kind)
    (child_parsers : List Parser) (r t : Str) (m : Memory F)
    (hiso : kind.isolate r = .field t) :
    (∀ m1, succeedInOrder stod t child_parsers m m1 →
      Parser.Parse stod (.mk kind none none none child_parsers) r m
        = (.returned .GZAT_SUCCESS, m1)) ∧
    (∀ pre ck post mk e m1, child_parsers = pre ++ ck :: post →
      succeedInOrder stod t pre m mk →
      Parser.Parse stod ck t { mk with calls := mk.calls ++ [(ck, t)] } = (.returned e, m1) →
      e ≠ .GZAT_SUCCESS →
      Parser.Parse stod (.mk kind none none none child_parsers) r m = (.returned e, m1)) := by
  constructor
  · intro m1 h
    rw [Parser.Parse, hiso]
    simp only [CastOutput, parseChildren_success stod t child_parsers m m1 h]
  · intro pre ck post mk e m1 hcs hpre hk he
    have hne : Outcome.returned e ≠ .returned .GZAT_SUCCESS := by
      intro h
      exact he (Outcome.returned.inj h)
    rw [Parser.Parse, hiso, hcs]
    simp only [CastOutput,
      parseChildren_first_failure stod t ck post _ m1 hne pre m mk hpre hk]

/-- C13, at a comma-split node over the response `12` with three children: an integer field
(succeeds and writes 12 to slot 0), a name-value parser (returns `GZAT_NOT_SUPPORTED`) and a
second integer field bound to slot 2. The node returns `GZAT_NOT_SUPPORTED`, the first two
children were called on the same text in order, the third child was not called and slot 2 keeps
its value. -/
theorem C13_short_circuit_witness :
    Kind.isolate (.CommaSplitParser 0) "12".toList = .field "12".toList ∧
    ∃ m1, Parser.Parse (fun _ => (none : Option Unit))
      (.mk (.CommaSplitParser 0) none none none
        [.mk (.CommaSplitParser 0) (some 0) none none [],
         .mk (.NameValueParser 0) none none (some 1) [],
         .mk (.CommaSplitParser 0) (some 2) none none []]) "12".toList exampleMemory
        = (.returned .GZAT_NOT_SUPPORTED, m1) ∧
      m1.int64 0 = 12 ∧ m1.int64 2 = 0 ∧
      m1.calls = [(.mk (.CommaSplitParser 0) (some 0) none none [], "12".toList),
                  (.mk (.NameValueParser 0) none none (some 1) [], "12".toList)] :=
  ⟨by decide, _,
    (C13_short_circuit (fun _ => (none : Option Unit)) (.CommaSplitParser 0)
      [.mk (.CommaSplitParser 0) (some 0) none none [],
       .mk (.NameValueParser 0) none none (some 1) [],
       .mk (.CommaSplitParser 0) (some 2) none none []] "12".toList "12".toList exampleMemory
      (by decide)).2
      [.mk (.CommaSplitParser 0) (some 0) none none []]
      (.mk (.NameValueParser 0) none none (some 1) [])
      [.mk (.CommaSplitParser 0) (some 2) none none []]
      _ .GZAT_NOT_SUPPORTED _ rfl ⟨_, rfl, rfl⟩ rfl (by decide),
    by decide, by decide, rfl⟩

/-! ## Claims about the parentheses-split and name-value parsers -/

theorem paren_isolate_none (r : Str) (h : '(' ∉ r) :
    ParenthesesParser.isolate r = .stop (.returned .GZAT_ERROR) := by
  rw [ParenthesesParser.isolate, find_not_mem '(' [] r h]

theorem paren_isolate_open (pre rest : Str) (hpre : '(' ∉ pre) (hrest : ')' ∉ rest) :
    ParenthesesParser.isolate (pre ++ '(' :: rest) = .stop (.returned .GZAT_ERROR) := by
  have h1 : find (pre ++ '(' :: rest) ['('] = some pre.length := by
    simpa using find_append_first '(' [] rest pre hpre
  rw [ParenthesesParser.isolate, h1]
  simp only [substr_npos_drop, find_not_mem ')' [] rest hrest]

theorem paren_isolate_group (pre mid post : Str) (hpre : '(' ∉ pre) (hmid : ')' ∉ mid) :
    ParenthesesParser.isolate (pre ++ '(' :: (mid ++ ')' :: post)) = .field mid := by
  have h1 : find (pre ++ '(' :: (mid ++ ')' :: post)) ['('] = some pre.length := by
    simpa using find_append_first '(' [] (mid ++ ')' :: post) pre hpre
  have h2 : find (mid ++ ')' :: post) [')'] = some mid.length := by
    simpa using find_append_first ')' [] post mid hmid
  have h3 : substr (pre ++ '(' :: (mid ++ ')' :: post)) (pre.length + 1) mid.length
      = some mid := by
    have hd : (pre ++ '(' :: (mid ++ ')' :: post)).drop (pre.length + 1)
        = mid ++ ')' :: post := by
      rw [show pre ++ '(' :: (mid ++ ')' :: post) = (pre ++ ['(']) ++ (mid ++ ')' :: post) by simp]
      exact List.drop_left' (by simp)
    simp [substr, hd]
  rw [ParenthesesParser.isolate, h1]
  simp only [substr_npos_drop, h2, h3, Isolated.ofSubstr]

/-- C18. Parentheses-split extracts the first group, whatever the field position: for every
field position `p`, whatever slots and children are attached, and every response `r`, `Parse` on
a parentheses-split parser (1) returns `GZAT_ERROR` with the memory unchanged if `r` holds no `(`,
(2) does the same if no `)` follows the first `(`, (3) is otherwise `CastOutput` on the text
strictly between the first `(` and the first `)` after it, and (4) is the same for every other
position `q`. -/
theorem C18_parentheses {F : Type} (stod : Str → Option F) (p : Nat)
    (int_out double_out string_out : Option Nat) (child_parsers : List Parser) (r : Str)
    (m : Memory F) :
    ('(' ∉ r →
      Parser.Parse stod (.mk (.ParenthesesParser p) int_out double_out string_out child_parsers)
        r m = (.returned .GZAT_ERROR, m)) ∧
    (∀ pre rest, r = pre ++ '(' :: rest → '(' ∉ pre → ')' ∉ rest →
      Parser.Parse stod (.mk (.ParenthesesParser p) int_out double_out string_out child_parsers)
        r m = (.returned .GZAT_ERROR, m)) ∧
    (∀ pre mid post, r = pre ++ '(' :: (mid ++ ')' :: post) → '(' ∉ pre → ')' ∉ mid →
      Parser.Parse stod (.mk (.ParenthesesParser p) int_out double_out string_out child_parsers)
        r m = CastOutput stod int_out double_out string_out
          (Parser.ParseChildren stod child_parsers) mid m) ∧
    (∀ q,
      Parser.Parse stod (.mk (.ParenthesesParser q) int_out double_out string_out child_parsers)
        r m =
      Parser.Parse stod (.mk (.ParenthesesParser p) int_out double_out string_out child_parsers)
        r m) := by
  refine ⟨?_, ?_, ?_, ?_⟩
  · intro h
    rw [Parser.Parse]
    simp only [Kind.isolate, paren_isolate_none r h]
  · intro pre rest hr hpre hrest
    rw [Parser.Parse, hr]
    simp only [Kind.isolate, paren_isolate_open pre rest hpre hrest]
  · intro pre mid post hr hpre hmid
    rw [Parser.Parse, hr]
    simp only [Kind.isolate, paren_isolate_group pre mid post hpre hmid]
  · intro q
    rw [Parser.Parse, Parser.Parse]
    rfl

/-- C18, at the response `+COPS: (2)(7)` with an integer slot bound and field position 1: the
text cast is `2`, the first group, and the slot holds 2, not 7. -/
theorem C18_parentheses_witness :
    "+COPS: (2)(7)".toList = "+COPS: ".toList ++ '(' :: ("2".toList ++ ')' :: "(7)".toList) ∧
    '(' ∉ "+COPS: ".toList ∧ ')' ∉ "2".toList ∧
    Parser.Parse (fun _ => (none : Option Unit))
      (.mk (.ParenthesesParser 1) (some 0) none none []) "+COPS: (2)(7)".toList exampleMemory
      = CastOutput (fun _ => (none : Option Unit)) (some 0) none none
          (Parser.ParseChildren (fun _ => (none : Option Unit)) []) "2".toList exampleMemory ∧
    (Parser.Parse (fun _ => (none : Option Unit))
      (.mk (.ParenthesesParser 1) (some 0) none none []) "+COPS: (2)(7)".toList
        exampleMemory).2.int64 0 = 2 :=
  ⟨by decide, by decide, by decide,
    (C18_parentheses (fun _ => (none : Option Unit)) 1 (some 0) none none []
      "+COPS: (2)(7)".toList exampleMemory).2.2.1 "+COPS: ".toList "2".toList "(7)".toList
      (by decide) (by decide) (by decide),
    by decide⟩

/-- C19. Name-value parsing is unsupported: for every field position, whatever slots and
children are attached, and every response, `Parse` on a name-value parser returns
`GZAT_NOT_SUPPORTED` and leaves the memory as it was: no slot is written and no child is called. -/
theorem C19_name_value {F : Type} (stod : Str → Option F) (p : Nat)
    (int_out double_out string_out : Option Nat) (child_parsers : List Parser) (r : Str)
    (m : Memory F) :
    Parser.Parse stod (.mk (.NameValueParser p) int_out double_out string_out child_parsers) r m
      = (.returned .GZAT_NOT_SUPPORTED, m) := by
  rw [Parser.Parse]
  rfl

/-! ## Claims about leaves -/

theorem isolate_zero_field (r : Str) : ∃ t, CommaSplitParser.isolate 0 r = .field t := by
  cases h1 : find r [','] with
  | some e =>
    exact ⟨r.take e, by
      simp [CommaSplitParser.isolate, CommaSplitParser.skip, h1, substr, Isolated.ofSubstr]⟩
  | none =>
    cases h2 : find r ['\r'] with
    | some e =>
      exact ⟨r.take e, by
        simp [CommaSplitParser.isolate, CommaSplitParser.skip, h1, h2, substr,
          Isolated.ofSubstr]⟩
    | none =>
      exact ⟨r, by
        simp [CommaSplitParser.isolate, CommaSplitParser.skip, h1, h2, substr_npos,
          Isolated.ofSubstr]⟩

theorem isolate_enough_commas (p : Nat) : ∀ r : Str, p ≤ r.count ',' →
    ∃ t, CommaSplitParser.isolate p r = .field t := by
  induction p with
  | zero => intro r _; exact isolate_zero_field r
  | succ n ih =>
    intro r h
    obtain ⟨f, rest, rfl, hf⟩ := split_first_comma r (by omega)
    have hcount : (f ++ ',' :: rest).count ',' = rest.count ',' + 1 := by
      simp [List.count_append, List.count_eq_zero.mpr hf]
    rw [isolate_succ n f rest hf]
    exact ih rest (by omega)

/-- A node without slot and without child returns what its isolation step yields, `GZAT_SUCCESS`
when a field is isolated, and leaves the memory as it was. -/
theorem parse_leaf {F : Type} (stod : Str → Option F) (kind : Kind) (r : Str) (m : Memory F) :
    Parser.Parse stod (.mk kind none none none []) r m =
      (match kind.isolate r with
        | .stop o => o
        | .field _ => .returned .GZAT_SUCCESS, m) := by
  rw [Parser.Parse]
  cases kind.isolate r with
  | stop o => rfl
  | field t => simp only [CastOutput, Parser.ParseChildren]

/-- C14 (amended). A leaf fails exactly when it cannot isolate its field: for every parser node
without children and without bound output slot and every response `r`, `Parse` leaves the memory
as it was, and (1) a name-value leaf returns `GZAT_NOT_SUPPORTED`; (2) a comma-split leaf at
position `p` returns `GZAT_SUCCESS` when `r` has at least `p` commas and `GZAT_ERROR` otherwise;
(3) a command-echo leaf returns `GZAT_ERROR` when the identifier does not occur in `r`, and
`GZAT_SUCCESS` when at least one character follows its first occurrence; (4) a parentheses-split
leaf returns `GZAT_ERROR` when `r` has no `(` or no `)` after its first `(`, and `GZAT_SUCCESS`
otherwise. -/
theorem C14_leaf {F : Type} (stod : Str → Option F) (kind : Kind) (r : Str) (m : Memory F) :
    (Parser.Parse stod (.mk kind none none none []) r m).2 = m ∧
    (∀ p, kind = .NameValueParser p →
      (Parser.Parse stod (.mk kind none none none []) r m).1 = .returned .GZAT_NOT_SUPPORTED) ∧
    (∀ p, kind = .CommaSplitParser p →
      (Parser.Parse stod (.mk kind none none none []) r m).1 =
        if p ≤ r.count ',' then .returned .GZAT_SUCCESS else .returned .GZAT_ERROR) ∧
    (∀ cmd, kind = .CommandParser cmd →
      (¬ cmd.cmd_id <:+: r →
        (Parser.Parse stod (.mk kind none none none []) r m).1 = .returned .GZAT_ERROR) ∧
      (∀ s, cmd.cmd_id <+: r.drop s → (∀ q, q < s → ¬ cmd.cmd_id <+: r.drop q) →
        s + cmd.cmd_id.length + 1 ≤ r.length →
        (Parser.Parse stod (.mk kind none none none []) r m).1 = .returned .GZAT_SUCCESS)) ∧
    (∀ p, kind = .ParenthesesParser p →
      ('(' ∉ r →
        (Parser.Parse stod (.mk kind none none none []) r m).1 = .returned .GZAT_ERROR) ∧
      (∀ pre rest, r = pre ++ '(' :: rest → '(' ∉ pre →
        (Parser.Parse stod (.mk kind none none none []) r m).1 =
          if ')' ∈ rest then .returned .GZAT_SUCCESS else .returned .GZAT_ERROR)) := by
  rw [parse_leaf]
  refine ⟨rfl, ?_, ?_, ?_, ?_⟩
  · rintro p rfl
    rfl
  · rintro p rfl
    by_cases h : p ≤ r.count ','
    · obtain ⟨t, ht⟩ := isolate_enough_commas p r h
      simp only [Kind.isolate, ht, if_pos h]
    · simp only [Kind.isolate, CommaSplitParser.isolate, skip_too_few p r (by omega), if_neg h]
  · rintro cmd rfl
    constructor
    · intro hno
      simp only [Kind.isolate, CommandParser.isolate, find_none_of_absent r _ hno]
    · intro s hpre hmin hlen
      simp only [Kind.isolate, CommandParser.isolate, find_first_occurrence r _ s hpre hmin,
        substr_npos, if_pos hlen, Isolated.ofSubstr]
  · rintro p rfl
    constructor
    · intro h
      simp only [Kind.isolate, paren_isolate_none r h]
    · rintro pre rest rfl hpre
      by_cases hc : ')' ∈ rest
      · obtain ⟨mid, post, e, hmid⟩ : ∃ mid post, rest = mid ++ ')' :: post ∧ ')' ∉ mid := by
          cases hf : find rest [')'] with
          | none => exact absurd hc (find_singleton_none ')' rest hf)
          | some s =>
            obtain ⟨mid, post, e, hn, -⟩ := find_singleton_some ')' rest s hf
            exact ⟨mid, post, e, hn⟩
        rw [if_pos hc, e]
        simp only [Kind.isolate, paren_isolate_group pre mid post hpre hmid]
      · rw [if_neg hc]
        simp only [Kind.isolate, paren_isolate_open pre rest hpre hc]

/-- C14 as stated fails: the comma-split leaf at position 0, the command-echo leaf for `+CSQ`
and the parentheses-split leaf, none of them with a child or a bound slot, return `GZAT_SUCCESS`
on the responses `10,100`, `+CSQ: 10,100` and `(1)`. -/
theorem C14_leaf_counterexample :
    (Parser.Parse (fun _ => (none : Option Unit)) (Parser.new (.CommaSplitParser 0))
      "10,100".toList exampleMemory).1 = .returned .GZAT_SUCCESS ∧
    (Parser.Parse (fun _ => (none : Option Unit))
      (Parser.new (.CommandParser
        { ms := 1, me := 2, cmd_id := "+CSQ".toList, cmd_payload := [] }))
      "+CSQ: 10,100".toList exampleMemory).1 = .returned .GZAT_SUCCESS ∧
    (Parser.Parse (fun _ => (none : Option Unit)) (Parser.new (.ParenthesesParser 0))
      "(1)".toList exampleMemory).1 = .returned .GZAT_SUCCESS := by
  decide

/-! ## Claims about the integer and string conversions -/

theorem takeWhile_head_false (p : Char → Bool) (s : Str) (h : ∀ c ∈ s.head?, p c = false) :
    s.takeWhile p = [] := by
  cases s with
  | nil => rfl
  | cons a t =>
    have ha : p a = false := h a (by simp)
    simp [List.takeWhile, ha]

/-- What `stoi` reads its digits from is the text after blanks and sign. -/
theorem stoi_none_of_no_digit (text : Str)
    (h : (afterBlanksAndSign text).takeWhile Char.isDigit = []) : stoi text = none := by
  have hs2 : (if (text.dropWhile isspace).head? = some '-' ∨
      (text.dropWhile isspace).head? = some '+' then (text.dropWhile isspace).tail
      else text.dropWhile isspace) = afterBlanksAndSign text := by
    unfold afterBlanksAndSign
    cases hd : text.dropWhile isspace with
    | nil => simp
    | cons a t =>
      by_cases h1 : a = '+'
      · subst h1; simp
      · by_cases h2 : a = '-'
        · subst h2; simp
        · simp [h1, h2]
  simp only [stoi, hs2, h, if_true]

/-- C15. Malformed integers fail with no write: for every node with an integer slot bound,
whatever else is attached, and every field text that after its leading whitespace and one optional
sign does not start with a decimal digit (the empty text included), `CastOutput` returns
`GZAT_ERROR` (no exception leaves it) and the memory, the integer slot included, is unchanged. -/
theorem C15_malformed_integer {F : Type} (stod : Str → Option F) (out : Nat)
    (double_out string_out : Option Nat) (children : Str → Memory F → Outcome × Memory F)
    (text : Str) (m : Memory F)
    (h : ∀ c ∈ (afterBlanksAndSign text).head?, c.isDigit = false) :
    CastOutput stod (some out) double_out string_out children text m
      = (.returned .GZAT_ERROR, m) := by
  have hn := stoi_none_of_no_digit text (takeWhile_head_false _ _ h)
  simp only [CastOutput, hn]

/-- C15, at the text ` -abc` (and the empty text read the same way). -/
theorem C15_malformed_integer_witness :
    (∀ c ∈ (afterBlanksAndSign " -abc".toList).head?, c.isDigit = false) ∧
    (∀ c ∈ (afterBlanksAndSign []).head?, c.isDigit = false) ∧
    CastOutput (fun _ => (none : Option Unit)) (some 0) none (some 1)
      (Parser.ParseChildren (fun _ => (none : Option Unit)) []) " -abc".toList exampleMemory
      = (.returned .GZAT_ERROR, exampleMemory) :=
  ⟨by decide, by decide,
    C15_malformed_integer (fun _ => (none : Option Unit)) 0 none (some 1)
      (Parser.ParseChildren (fun _ => (none : Option Unit)) []) " -abc".toList exampleMemory
      (by decide)⟩

/-- C16 fails on the code for the empty text and for the text that is one double quote: after
the leading quote is removed the string is empty, and `(*string_out)[string_out->size()-1]` then
reads at index `size_t(-1)`, outside the string. For every other text `CastOutput` returns
`GZAT_SUCCESS` and the slot holds the text without one leading and one trailing double quote. -/
theorem C16_quote_stripping {F : Type} (stod : Str → Option F) (out : Nat)
    (children : Str → Memory F → Outcome × Memory F) (text : Str) (m : Memory F) :
    (text = [] ∨ text = ['"'] →
      (CastOutput stod none none (some out) children text m).1 = .undefined) ∧
    (text ≠ [] → text ≠ ['"'] →
      CastOutput stod none none (some out) children text m =
        (.returned .GZAT_SUCCESS,
          { m with string := (Function.update m.string out (stripQuotes text)) })) := by
  constructor
  · rintro (rfl | rfl) <;> rfl
  · intro h1 h2
    have hne : (if text.head? = some '"' then text.tail else text) ≠ [] := by
      cases text with
      | nil => exact absurd rfl h1
      | cons a t =>
        by_cases ha : a = '"'
        · subst ha
          simp only [List.head?_cons, if_true, List.tail_cons]
          intro ht
          exact h2 (by rw [ht])
        · simp [ha]
    obtain ⟨c, hc⟩ : ∃ c, (if text.head? = some '"' then text.tail else text).getLast? = some c := by
      cases hl : (if text.head? = some '"' then text.tail else text).getLast? with
      | none => exact absurd (List.getLast?_eq_none_iff.mp hl) hne
      | some c => exact ⟨c, rfl⟩
    simp only [CastOutput, hc, stripQuotes, Option.some.injEq]

/-- C16, at the empty text and at the text `"`: undefined behaviour; and at `"a`, where the
single leading quote is removed. -/
theorem C16_quote_stripping_witness :
    (CastOutput (fun _ => (none : Option Unit)) none none (some 0)
      (Parser.ParseChildren (fun _ => (none : Option Unit)) []) [] exampleMemory).1
      = .undefined ∧
    (CastOutput (fun _ => (none : Option Unit)) none none (some 0)
      (Parser.ParseChildren (fun _ => (none : Option Unit)) []) ['"'] exampleMemory).1
      = .undefined ∧
    CastOutput (fun _ => (none : Option Unit)) none none (some 0)
      (Parser.ParseChildren (fun _ => (none : Option Unit)) []) ['"', 'a'] exampleMemory
      = (.returned .GZAT_SUCCESS,
          { exampleMemory with
            string := (Function.update exampleMemory.string 0 (stripQuotes ['"', 'a'])) }) ∧
    stripQuotes ['"', 'a'] = ['a'] :=
  ⟨(C16_quote_stripping (fun _ => (none : Option Unit)) 0
      (Parser.ParseChildren (fun _ => (none : Option Unit)) []) [] exampleMemory).1 (Or.inl rfl),
    (C16_quote_stripping (fun _ => (none : Option Unit)) 0
      (Parser.ParseChildren (fun _ => (none : Option Unit)) []) ['"'] exampleMemory).1
      (Or.inr rfl),
    (C16_quote_stripping (fun _ => (none : Option Unit)) 0
      (Parser.ParseChildren (fun _ => (none : Option Unit)) []) ['"', 'a'] exampleMemory).2
      (by decide) (by decide),
    by decide⟩

/-- C17. Output-slot priority: for every field text, with an integer slot attached `CastOutput`
is what it is with the integer slot alone, whatever float slot, string slot and children are
attached, and the float slots, the string slots and the record of child calls are unchanged;
with a float slot and no integer slot attached it is what it is with the float slot alone,
whatever string slot and children are attached, and the integer slots, the string slots and the
record of child calls are unchanged. -/
theorem C17_slot_priority {F : Type} (stod : Str → Option F)
    (children : Str → Memory F → Outcome × Memory F) (text : Str) (m : Memory F) :
    (∀ (i : Nat) (d s : Option Nat) (children1 : Str → Memory F → Outcome × Memory F),
      CastOutput stod (some i) d s children text m
        = CastOutput stod (some i) none none children1 text m ∧
      (CastOutput stod (some i) d s children text m).2.double = m.double ∧
      (CastOutput stod (some i) d s children text m).2.string = m.string ∧
      (CastOutput stod (some i) d s children text m).2.calls = m.calls) ∧
    (∀ (d : Nat) (s : Option Nat) (children1 : Str → Memory F → Outcome × Memory F),
      CastOutput stod none (some d) s children text m
        = CastOutput stod none (some d) none children1 text m ∧
      (CastOutput stod none (some d) s children text m).2.int64 = m.int64 ∧
      (CastOutput stod none (some d) s children text m).2.string = m.string ∧
      (CastOutput stod none (some d) s children text m).2.calls = m.calls) := by
  constructor
  · intro i d s children1
    cases h : stoi text <;> simp [CastOutput, h]
  · intro d s children1
    cases h : stod text <;> simp [CastOutput, h]

/-- C17, at the text `abc` with an integer slot and a string slot both attached and a child
present: `GZAT_ERROR`, the string slot unchanged, the child not called. -/
theorem C17_slot_priority_witness :
    CastOutput (fun _ => (none : Option Unit)) (some 0) none (some 1)
      (Parser.ParseChildren (fun _ => (none : Option Unit)) [Parser.new (.CommaSplitParser 0)])
      "abc".toList exampleMemory
      = CastOutput (fun _ => (none : Option Unit)) (some 0) none none
          (Parser.ParseChildren (fun _ => (none : Option Unit)) []) "abc".toList exampleMemory ∧
    (CastOutput (fun _ => (none : Option Unit)) (some 0) none (some 1)
      (Parser.ParseChildren (fun _ => (none : Option Unit)) [Parser.new (.CommaSplitParser 0)])
      "abc".toList exampleMemory).1 = .returned .GZAT_ERROR ∧
    (CastOutput (fun _ => (none : Option Unit)) (some 0) none (some 1)
      (Parser.ParseChildren (fun _ => (none : Option Unit)) [Parser.new (.CommaSplitParser 0)])
      "abc".toList exampleMemory).2.string = exampleMemory.string :=
  ⟨((C17_slot_priority (fun _ => (none : Option Unit))
      (Parser.ParseChildren (fun _ => (none : Option Unit)) [Parser.new (.CommaSplitParser 0)])
      "abc".toList exampleMemory).1 0 none (some 1)
      (Parser.ParseChildren (fun _ => (none : Option Unit)) [])).1,
    by decide,
    ((C17_slot_priority (fun _ => (none : Option Unit))
      (Parser.ParseChildren (fun _ => (none : Option Unit)) [Parser.new (.CommaSplitParser 0)])
      "abc".toList exampleMemory).1 0 none (some 1)
      (Parser.ParseChildren (fun _ => (none : Option Unit)) [])).2.2.1⟩

theorem dropWhile_blanks (ws body : Str) (hws : ∀ c ∈ ws, isspace c = true)
    (hb : ∀ c ∈ body.head?, isspace c = false) : (ws ++ body).dropWhile isspace = body := by
  induction ws with
  | nil =>
    cases body with
    | nil => rfl
    | cons a t =>
      have ha : isspace a = false := hb a (by simp)
      simp [List.dropWhile, ha]
  | cons a t ih =>
    have ha : isspace a = true := hws a (by simp)
    simp only [List.cons_append, List.dropWhile, ha]
    exact ih (fun c hc => hws c (by simp [hc]))

/-- What `stoi` reads from blanks, an optional sign, a run of digits and a rest that does not
start with a digit. -/
theorem stoi_shape (ws sign ds rest : Str) (hws : ∀ c ∈ ws, isspace c = true)
    (hsign : sign = [] ∨ sign = ['+'] ∨ sign = ['-'])
    (hds : ∀ c ∈ ds, c.isDigit = true) (hne : ds ≠ [])
    (hrest : ∀ c ∈ rest.head?, c.isDigit = false) :
    stoi (ws ++ sign ++ ds ++ rest) =
      if -2147483648 ≤ (if sign = ['-'] then -(digitsValue ds : Int) else (digitsValue ds : Int)) ∧
          (if sign = ['-'] then -(digitsValue ds : Int) else (digitsValue ds : Int)) ≤ 2147483647
      then some (if sign = ['-'] then -(digitsValue ds : Int) else (digitsValue ds : Int))
      else none := by
  obtain ⟨d, t, rfl⟩ := List.exists_cons_of_ne_nil hne
  obtain ⟨h1, h2, h3, -, -⟩ := isDigit_plain d (hds d (by simp))
  have htw : (d :: (t ++ rest)).takeWhile Char.isDigit = d :: t := by
    rw [← List.cons_append, List.takeWhile_append_of_pos hds, takeWhile_head_false _ _ hrest,
      List.append_nil]
  rcases hsign with rfl | rfl | rfl
  · have hdw1 : (ws ++ [] ++ (d :: t) ++ rest).dropWhile isspace = d :: (t ++ rest) := by
      rw [show ws ++ [] ++ (d :: t) ++ rest = ws ++ (d :: (t ++ rest)) by simp]
      exact dropWhile_blanks ws _ hws (by intro c hc; simp at hc; subst hc; exact h1)
    simp only [stoi, hdw1, List.head?_cons, Option.some.injEq, h2, h3, or_self, if_false, htw]
    simp
  · have hdw1 : (ws ++ ['+'] ++ (d :: t) ++ rest).dropWhile isspace
        = '+' :: (d :: (t ++ rest)) := by
      rw [show ws ++ ['+'] ++ (d :: t) ++ rest = ws ++ ('+' :: (d :: (t ++ rest))) by simp]
      exact dropWhile_blanks ws _ hws (by intro c hc; simp at hc; subst hc; decide)
    simp only [stoi, hdw1, List.head?_cons, List.tail_cons]
    simp [htw]
  · have hdw1 : (ws ++ ['-'] ++ (d :: t) ++ rest).dropWhile isspace
        = '-' :: (d :: (t ++ rest)) := by
      rw [show ws ++ ['-'] ++ (d :: t) ++ rest = ws ++ ('-' :: (d :: (t ++ rest))) by simp]
      exact dropWhile_blanks ws _ hws (by intro c hc; simp at hc; subst hc; decide)
    simp only [stoi, hdw1, List.head?_cons, List.tail_cons]
    simp [htw]

/-- C20. Integer outputs are limited to 32 bits although the slot is 64-bit: for every node with
an integer slot bound, whatever else is attached, (1) on every text `CastOutput` either returns
`GZAT_ERROR` with the memory unchanged or returns `GZAT_SUCCESS` having written to the slot a
value between `-2^31` and `2^31 - 1`; (2) on every text made of blanks, an optional sign, a
non-empty run of digits and a rest that does not start with a digit, where the signed value of
the digits is above `2^31 - 1` or below `-2^31`, it returns `GZAT_ERROR` with the memory
unchanged; (3) so it does on the decimal numeral of every integer outside that range. -/
theorem C20_int_range {F : Type} (stod : Str → Option F) (out : Nat)
    (double_out string_out : Option Nat) (children : Str → Memory F → Outcome × Memory F)
    (m : Memory F) :
    (∀ text,
      CastOutput stod (some out) double_out string_out children text m
        = (.returned .GZAT_ERROR, m) ∨
      ∃ v : Int, -2147483648 ≤ v ∧ v ≤ 2147483647 ∧
        CastOutput stod (some out) double_out string_out children text m
          = (.returned .GZAT_SUCCESS, { m with int64 := (Function.update m.int64 out v) })) ∧
    (∀ ws sign ds rest : Str, (∀ c ∈ ws, isspace c = true) →
      (sign = [] ∨ sign = ['+'] ∨ sign = ['-']) → (∀ c ∈ ds, c.isDigit = true) → ds ≠ [] →
      (∀ c ∈ rest.head?, c.isDigit = false) →
      ((sign = ['-'] ∧ 2147483648 < digitsValue ds) ∨
        (sign ≠ ['-'] ∧ 2147483647 < digitsValue ds)) →
      CastOutput stod (some out) double_out string_out children (ws ++ sign ++ ds ++ rest) m
        = (.returned .GZAT_ERROR, m)) ∧
    (∀ z : Int, (2147483647 < z ∨ z < -2147483648) →
      CastOutput stod (some out) double_out string_out children (decimal z) m
        = (.returned .GZAT_ERROR, m)) := by
  have hshape : ∀ ws sign ds rest : Str, (∀ c ∈ ws, isspace c = true) →
      (sign = [] ∨ sign = ['+'] ∨ sign = ['-']) → (∀ c ∈ ds, c.isDigit = true) → ds ≠ [] →
      (∀ c ∈ rest.head?, c.isDigit = false) →
      ((sign = ['-'] ∧ 2147483648 < digitsValue ds) ∨
        (sign ≠ ['-'] ∧ 2147483647 < digitsValue ds)) →
      CastOutput stod (some out) double_out string_out children (ws ++ sign ++ ds ++ rest) m
        = (.returned .GZAT_ERROR, m) := by
    intro ws sign ds rest hws hsign hds hne hrest hval
    have hs := stoi_shape ws sign ds rest hws hsign hds hne hrest
    have hn : stoi (ws ++ sign ++ ds ++ rest) = none := by
      rw [hs]
      rcases hval with ⟨h1, h2⟩ | ⟨h1, h2⟩
      · rw [if_pos h1, if_neg]
        omega
      · rw [if_neg h1, if_neg]
        omega
    simp only [CastOutput, hn]
  refine ⟨?_, hshape, ?_⟩
  · intro text
    cases hst : stoi text with
    | none =>
      left
      simp only [CastOutput, hst]
    | some v =>
      right
      have hr : -2147483648 ≤ v ∧ v ≤ 2147483647 := by
        simp only [stoi] at hst
        split_ifs at hst <;> (cases hst; assumption)
      exact ⟨v, hr.1, hr.2, by simp only [CastOutput, hst]⟩
  · intro z hz
    cases z with
    | ofNat n =>
      obtain ⟨d1, d2, d3⟩ := toDigits_spec n
      have := hshape [] [] (Nat.toDigits 10 n) [] (by simp) (Or.inl rfl) d1 d2 (by simp)
        (Or.inr ⟨by simp, by
          rw [d3]
          rcases hz with h | h
          · exact Int.ofNat_lt.mp h
          · have : (0 : Int) ≤ Int.ofNat n := Int.ofNat_nonneg n
            omega⟩)
      simpa [decimal] using this
    | negSucc n =>
      obtain ⟨d1, d2, d3⟩ := toDigits_spec (n + 1)
      have hn : 2147483648 < n + 1 := by
        have e : Int.negSucc n = -((n + 1 : Nat) : Int) := rfl
        rw [e] at hz
        omega
      have := hshape [] ['-'] (Nat.toDigits 10 (n + 1)) [] (by simp) (Or.inr (Or.inr rfl)) d1 d2
        (by simp) (Or.inl ⟨rfl, by rw [d3]; exact hn⟩)
      simpa [decimal] using this

/-- C20, at the texts `2147483648` and ` -2147483649,7`: `GZAT_ERROR`, memory unchanged; and at
`2147483647`, which is written. -/
theorem C20_int_range_witness :
    CastOutput (fun _ => (none : Option Unit)) (some 0) none none
      (Parser.ParseChildren (fun _ => (none : Option Unit)) [])
      ([] ++ [] ++ "2147483648".toList ++ []) exampleMemory
      = (.returned .GZAT_ERROR, exampleMemory) ∧
    CastOutput (fun _ => (none : Option Unit)) (some 0) none none
      (Parser.ParseChildren (fun _ => (none : Option Unit)) [])
      ([' '] ++ ['-'] ++ "2147483649".toList ++ ",7".toList) exampleMemory
      = (.returned .GZAT_ERROR, exampleMemory) ∧
    (CastOutput (fun _ => (none : Option Unit)) (some 0) none none
      (Parser.ParseChildren (fun _ => (none : Option Unit)) [])
      "2147483647".toList exampleMemory).2.int64 0 = 2147483647 :=
  ⟨(C20_int_range (fun _ => (none : Option Unit)) 0 none none
      (Parser.ParseChildren (fun _ => (none : Option Unit)) []) exampleMemory).2.1
      [] [] "2147483648".toList [] (by decide) (Or.inl rfl) (by decide) (by decide) (by decide)
      (Or.inr ⟨by decide, by decide⟩),
    (C20_int_range (fun _ => (none : Option Unit)) 0 none none
      (Parser.ParseChildren (fun _ => (none : Option Unit)) []) exampleMemory).2.1
      [' '] ['-'] "2147483649".toList ",7".toList (by decide) (Or.inr (Or.inr rfl)) (by decide)
      (by decide) (by decide) (Or.inl ⟨rfl, by decide⟩),
    by decide⟩

end gzat
